import Mathlib

/-!
Verification development for the swaggler repository: a shallow embedding of
the curl-command parser (`src/parsers/CurlParser.ts`, the variant the spec
follows) and the OpenAPI generator (`src/services/OpenAPIGenerator.ts`),
together with proofs about the spec's claims.

Modelling conventions:
* JavaScript objects are embedded as insertion-ordered association lists
  (`JsObj`); `objSet` mirrors JS property assignment (update in place, else
  append), `jsGet` mirrors property lookup.
* JSON-like runtime values are embedded as `JVal`; JS numbers are modelled as
  rationals with `Number.isInteger` becoming "denominator = 1".
* The generator's recursion carries `depth` and stops at `depth > 100`; the
  embedding uses the equivalent fuel `101 - depth`, so the source's entry
  point `depth = 0` is fuel `101` and the guard `depth > 100` is fuel `0`.
* Regex matching is embedded by bespoke scanners that follow JS semantics for
  the exact patterns the source uses (leftmost match, alternatives tried in
  order, greedy character classes, continuation after the match end for
  global regexes).
* Platform primitives used by the source (`JSON.parse`, `decodeURIComponent`,
  `new URL`, `URLSearchParams`) are modelled explicitly; each model's doc
  comment states its simplifications.
-/

namespace Swaggler

/-! ## JavaScript object model -/

/-- A JavaScript object: an insertion-ordered list of key/value pairs.
Real JS objects never hold duplicate keys; operations below preserve
key-uniqueness. -/
abbrev JsObj (α : Type) := List (String × α)

/-- JS property read `o[k]`: the value at the first occurrence of `k`. -/
def jsGet {α : Type} (o : JsObj α) (k : String) : Option α :=
  match o with
  | [] => none
  | (k', v) :: rest => if k' = k then some v else jsGet rest k

/-- JS property write `o[k] = v`: update in place if the key exists
(keeping its position), otherwise append. -/
def objSet {α : Type} (o : JsObj α) (k : String) (v : α) : JsObj α :=
  match o with
  | [] => [(k, v)]
  | (k', v') :: rest => if k' = k then (k', v) :: rest else (k', v') :: objSet rest k v

/-- The keys of a JS object, in insertion order. -/
def jsKeys {α : Type} (o : JsObj α) : List String := o.map Prod.fst

/-- JS object spread `{...a, ...b}`: insert all of `b`'s entries into `a`. -/
def jsUnion {α : Type} (a b : JsObj α) : JsObj α :=
  b.foldl (fun acc kv => objSet acc kv.1 kv.2) a

/-- A JS object literal `{k1: v1, ...}`: entries inserted left to right into
an empty object (spread entries are already flattened into the list). -/
def objLit {α : Type} (entries : List (String × α)) : JsObj α :=
  jsUnion [] entries

theorem jsKeys_cons {α : Type} (p : String × α) (tl : JsObj α) :
    jsKeys (p :: tl) = p.1 :: jsKeys tl := rfl

theorem jsKeys_objSet {α : Type} (o : JsObj α) (k : String) (v : α) (m : String) :
    m ∈ jsKeys (objSet o k v) ↔ m ∈ jsKeys o ∨ m = k := by
  induction o with
  | nil => simp [objSet, jsKeys]
  | cons hd tl ih =>
    obtain ⟨k', v'⟩ := hd
    by_cases h : k' = k
    · rw [objSet, if_pos h, jsKeys_cons, jsKeys_cons]
      subst h
      constructor
      · intro hm
        exact Or.inl hm
      · intro hm
        rcases hm with hm | hm
        · exact hm
        · subst hm
          exact List.mem_cons_self _ _
    · rw [objSet, if_neg h, jsKeys_cons, jsKeys_cons]
      rw [List.mem_cons, List.mem_cons, ih]
      tauto

theorem jsGet_objSet_self {α : Type} (o : JsObj α) (k : String) (v : α) :
    jsGet (objSet o k v) k = some v := by
  induction o with
  | nil => simp [objSet, jsGet]
  | cons hd tl ih =>
    obtain ⟨k', v'⟩ := hd
    by_cases h : k' = k
    · simp [objSet, h, jsGet]
    · simp [objSet, h, jsGet, ih]

theorem jsGet_objSet_other {α : Type} (o : JsObj α) (k : String) (v : α) (m : String)
    (hne : k ≠ m) : jsGet (objSet o k v) m = jsGet o m := by
  induction o with
  | nil => simp [objSet, jsGet, hne]
  | cons hd tl ih =>
    obtain ⟨k', v'⟩ := hd
    by_cases h : k' = k
    · subst h
      simp [objSet, jsGet, hne]
    · simp [objSet, h, jsGet, ih]

theorem objSet_fresh {α : Type} (o : JsObj α) (k : String) (v : α)
    (h : k ∉ jsKeys o) : objSet o k v = o ++ [(k, v)] := by
  induction o with
  | nil => simp [objSet]
  | cons hd tl ih =>
    obtain ⟨k', v'⟩ := hd
    rw [jsKeys_cons, List.mem_cons] at h
    push_neg at h
    rw [objSet, if_neg (fun hh => h.1 hh.symm), ih h.2]
    simp

theorem mem_values_objSet {α : Type} (o : JsObj α) (k : String) (v : α) (w : α)
    (h : w ∈ (objSet o k v).map Prod.snd) : w ∈ o.map Prod.snd ∨ w = v := by
  induction o with
  | nil =>
    rw [objSet] at h
    simp at h
    exact Or.inr h
  | cons hd tl ih =>
    obtain ⟨k', v'⟩ := hd
    by_cases hk : k' = k
    · rw [objSet, if_pos hk] at h
      rw [List.map_cons, List.mem_cons] at h ⊢
      tauto
    · rw [objSet, if_neg hk] at h
      rw [List.map_cons, List.mem_cons] at h ⊢
      rcases h with h | h
      · exact Or.inl (Or.inl h)
      · rcases ih h with h' | h'
        · exact Or.inl (Or.inr h')
        · exact Or.inr h'

/-! ## JSON-like values -/

/-- A JavaScript runtime value of the JSON-like fragment the program
manipulates.  Numbers are modelled as rationals; `Number.isInteger` becomes
"the denominator is 1". -/
inductive JVal : Type where
  | jnull : JVal
  | jbool (b : Bool) : JVal
  | jnum (q : ℚ) : JVal
  | jstr (s : String) : JVal
  | jarr (xs : List JVal) : JVal
  | jobj (fields : List (String × JVal)) : JVal

open JVal

/-- JS truthiness of a `JVal` (`null`, `false`, `0`, `""` are falsy,
objects and arrays are always truthy). -/
def jsTruthy : JVal → Bool
  | jnull => false
  | jbool b => b
  | jnum q => decide (q ≠ 0)
  | jstr s => decide (s ≠ "")
  | jarr _ => true
  | jobj _ => true

/-! ## Character classes and scanning primitives for the source's regexes -/

/-- The ECMAScript regex class whitespace set (WhiteSpace ∪ LineTerminator), as
matched by the patterns the source applies and by JS string trim. -/
def isJsSpace (c : Char) : Bool :=
  c = ' ' || c = '\t' || c = '\n' || c.toNat = 11 || c.toNat = 12 || c = '\r' ||
  c.toNat = 0xA0 || c.toNat = 0x1680 || (0x2000 ≤ c.toNat && c.toNat ≤ 0x200A) ||
  c.toNat = 0x2028 || c.toNat = 0x2029 || c.toNat = 0x202F || c.toNat = 0x205F ||
  c.toNat = 0x3000 || c.toNat = 0xFEFF

/-- Kernel-reducible stand-ins for JS `toUpperCase` / `toLowerCase` (ASCII,
which covers every string the source applies them to). -/
def jsToUpper (s : String) : String := (s.toList.map Char.toUpper).asString

def jsToLower (s : String) : String := (s.toList.map Char.toLower).asString

/-- Case-insensitive character comparison used by the source's `i`-flagged
regexes (ASCII folding; every literal those regexes contain is ASCII). -/
def ciChar (a b : Char) : Bool := a.toLower = b.toLower

/-- Match a literal (case-insensitively when `ci` is set) at the start of the
input, returning the remainder. -/
def matchLit (ci : Bool) (lit : List Char) (s : List Char) : Option (List Char) :=
  match lit, s with
  | [], _ => some s
  | _ :: _, [] => none
  | l :: ls, c :: cs => if (if ci then ciChar l c else l = c) then matchLit ci ls cs else none

/-- Greedy `\s+` at the start of the input. -/
def wsPlus : List Char → Option (List Char)
  | c :: cs => if isJsSpace c then some (cs.dropWhile isJsSpace) else none
  | [] => none

/-- Greedy one-or-more repetition of a character class, returning the capture
and the remainder. -/
def classPlus (p : Char → Bool) : List Char → Option (List Char × List Char)
  | c :: cs => if p c then some (c :: cs.takeWhile p, cs.dropWhile p) else none
  | [] => none

/-- Leftmost-match scan: try the pattern at every position left to right
(as a non-global JS regex search does). -/
def scanFirst {α : Type} (f : List Char → Option α) : List Char → Option α
  | [] => f []
  | c :: cs =>
    match f (c :: cs) with
    | some r => some r
    | none => scanFirst f cs

/-- All matches of a global JS regex: scan left to right, resuming after the
end of each match.  Fuel-driven; every pattern passed to it consumes at least
one character per match, so `length + 1` fuel is always sufficient. -/
def scanAll {α : Type} (f : List Char → Option (α × List Char)) : Nat → List Char → List α
  | 0, _ => []
  | fuel + 1, s =>
    match f s with
    | some (cap, rest) => cap :: scanAll f fuel rest
    | none =>
      match s with
      | [] => []
      | _ :: cs => scanAll f fuel cs

def isQuote (c : Char) : Bool := c = '\'' || c = '"'

def isAsciiLetter (c : Char) : Bool := ('A' ≤ c && c ≤ 'Z') || ('a' ≤ c && c ≤ 'z')

/-- The pattern `curl\s+'([^']+)'|curl\s+"([^"]+)"|curl\s+([^\s]+)` tried at
one position: alternatives in order, each greedy. -/
def tryUrlAt (s : List Char) : Option (String × List Char) :=
  (do
    let r1 ← matchLit false "curl".toList s
    let r2 ← wsPlus r1
    let r3 ← matchLit false ['\''] r2
    let (cap, r4) ← classPlus (fun c => c ≠ '\'') r3
    let r5 ← matchLit false ['\''] r4
    pure (cap.asString, r5)) <|>
  (do
    let r1 ← matchLit false "curl".toList s
    let r2 ← wsPlus r1
    let r3 ← matchLit false ['"'] r2
    let (cap, r4) ← classPlus (fun c => c ≠ '"') r3
    let r5 ← matchLit false ['"'] r4
    pure (cap.asString, r5)) <|>
  (do
    let r1 ← matchLit false "curl".toList s
    let r2 ← wsPlus r1
    let (cap, r3) ← classPlus (fun c => !isJsSpace c) r2
    pure (cap.asString, r3))

/-- The pattern `-X\s+([A-Z]+)` with the `i` flag, tried at one position. -/
def tryXAt (s : List Char) : Option (String × List Char) := do
  let r1 ← matchLit true "-X".toList s
  let r2 ← wsPlus r1
  let (cap, r3) ← classPlus isAsciiLetter r2
  pure (cap.asString, r3)

/-- The pattern `-H\s+'([^']+)'|-H\s+"([^"]+)"` (case-sensitive) tried at one
position. -/
def tryHdrAt (s : List Char) : Option (String × List Char) :=
  (do
    let r1 ← matchLit false "-H".toList s
    let r2 ← wsPlus r1
    let r3 ← matchLit false ['\''] r2
    let (cap, r4) ← classPlus (fun c => c ≠ '\'') r3
    let r5 ← matchLit false ['\''] r4
    pure (cap.asString, r5)) <|>
  (do
    let r1 ← matchLit false "-H".toList s
    let r2 ← wsPlus r1
    let r3 ← matchLit false ['"'] r2
    let (cap, r4) ← classPlus (fun c => c ≠ '"') r3
    let r5 ← matchLit false ['"'] r4
    pure (cap.asString, r5))

/-- A `['"]`-quoted capture `['"]([^'"]+)['"]` (quotes need not pair up,
exactly as in the source's regexes). -/
def quotedCapture (t : List Char) : Option (String × List Char) := do
  let r1 ← match t with
    | c :: cs => if isQuote c then some cs else none
    | [] => none
  let (cap, r2) ← classPlus (fun c => !isQuote c) r1
  let r3 ← match r2 with
    | c :: cs => if isQuote c then some cs else none
    | [] => none
  pure (cap.asString, r3)

/-- Shared tail `\s+['"]?([^'"\s]+)['"]?` of the `--data-raw` and
`--data-urlencode` patterns: optional quotes, with the opening one backtracked
when committing to it kills the match. -/
def looseQuotedCapture (r1 : List Char) : Option (String × List Char) :=
  let core := fun (t : List Char) => do
    let (cap, r2) ← classPlus (fun c => !isQuote c && !isJsSpace c) t
    let r3 := match r2 with
      | c :: cs => if isQuote c then cs else r2
      | [] => r2
    pure (cap.asString, r3)
  match r1 with
  | c :: cs => if isQuote c then core cs <|> core r1 else core r1
  | [] => core r1

/-- The pattern `--data-raw\s+['"]?([^'"\s]+)['"]?` with the `i` flag, at one
position. -/
def tryDataRawAt (s : List Char) : Option (String × List Char) := do
  let r1 ← matchLit true "--data-raw".toList s
  let r2 ← wsPlus r1
  looseQuotedCapture r2

/-- The pattern `--data-urlencode\s+['"]?([^'"\s]+)['"]?` with the `i` flag,
at one position. -/
def tryUrlEncAt (s : List Char) : Option (String × List Char) := do
  let r1 ← matchLit true "--data-urlencode".toList s
  let r2 ← wsPlus r1
  looseQuotedCapture r2

/-- The pattern `(?:-d|--data)\s+['"]([^'"]+)['"]` with the `i` flag, at one
position. -/
def tryDataAt (s : List Char) : Option (String × List Char) :=
  (do
    let r1 ← matchLit true "-d".toList s
    let r2 ← wsPlus r1
    quotedCapture r2) <|>
  (do
    let r1 ← matchLit true "--data".toList s
    let r2 ← wsPlus r1
    quotedCapture r2)

/-- The pattern `(?:-F|--form)\s+['"]([^'"]+)['"]` with the `i` flag, at one
position. -/
def tryFormAt (s : List Char) : Option (String × List Char) :=
  (do
    let r1 ← matchLit true "-F".toList s
    let r2 ← wsPlus r1
    quotedCapture r2) <|>
  (do
    let r1 ← matchLit true "--form".toList s
    let r2 ← wsPlus r1
    quotedCapture r2)

/-! ## Small string helpers (kernel-reducible stand-ins for JS string ops) -/

/-- Split at the first occurrence of a (non-empty) separator: JS
`s.split(sep)` destructured as `[key, ...rest]` with `rest.join(sep)`. -/
def splitFirstList (sep : List Char) : List Char → Option (List Char × List Char)
  | [] => none
  | c :: cs =>
    match matchLit false sep (c :: cs) with
    | some rest => some ([], rest)
    | none =>
      match splitFirstList sep cs with
      | some (pre, post) => some (c :: pre, post)
      | none => none

/-- JS `header.split(": ")` destructured into name and (re-joined) value; a
header without the separator keeps the whole text as the name and gets an
empty value. -/
def headerSplit (h : String) : String × String :=
  match splitFirstList ": ".toList h.toList with
  | some (pre, post) => (pre.asString, post.asString)
  | none => (h, "")

/-- JS `s.split(c)` for a single-character separator (keeps empty pieces). -/
def splitOnChar (c : Char) : List Char → List (List Char)
  | [] => [[]]
  | x :: xs =>
    let r := splitOnChar c xs
    if x = c then [] :: r
    else
      match r with
      | h :: t => (x :: h) :: t
      | [] => [[x]]

/-- JS `arr.join(sep)`. -/
def joinSep (sep : String) : List String → String
  | [] => ""
  | [x] => x
  | x :: xs => x ++ sep ++ joinSep sep xs

/-- JS `String.prototype.trim` on char lists: drop JS whitespace from both
ends. -/
def trimL (l : List Char) : List Char :=
  (l.dropWhile isJsSpace).rdropWhile isJsSpace

/-- JS `String.prototype.trim`. -/
def jsTrim (s : String) : String := (trimL s.toList).asString

/-- Whether a literal occurs (case-insensitively) anywhere in the input. -/
def hasTokCi (tok : List Char) : List Char → Bool
  | [] => (matchLit true tok []).isSome
  | c :: cs => (matchLit true tok (c :: cs)).isSome || hasTokCi tok cs

/-- Every JS-whitespace character of the list is a plain space. -/
def wsOnlySpace (l : List Char) : Prop := ∀ c ∈ l, isJsSpace c = true → c = ' '

/-- No two adjacent JS-whitespace characters. -/
def noTwoWs (l : List Char) : Prop :=
  l.Chain' (fun a b => ¬(isJsSpace a = true ∧ isJsSpace b = true))

/-! ## Percent decoding and UTF-8 (models of `decodeURIComponent` and the
WHATWG form decoder) -/

def hexDigit (c : Char) : Option Nat :=
  if '0' ≤ c ∧ c ≤ '9' then some (c.toNat - '0'.toNat)
  else if 'a' ≤ c ∧ c ≤ 'f' then some (c.toNat - 'a'.toNat + 10)
  else if 'A' ≤ c ∧ c ≤ 'F' then some (c.toNat - 'A'.toNat + 10)
  else none

/-- Tokenize a percent-encoded string strictly: `%XX` becomes a byte, every
other character passes through; a `%` not followed by two hex digits fails
(that is the first way `decodeURIComponent` throws `URIError`). -/
def pctTokens : List Char → Option (List (Char ⊕ Nat))
  | [] => some []
  | '%' :: h1 :: h2 :: rest => do
    let d1 ← hexDigit h1
    let d2 ← hexDigit h2
    let t ← pctTokens rest
    pure (Sum.inr (16 * d1 + d2) :: t)
  | '%' :: _ => none
  | c :: rest => do
    let t ← pctTokens rest
    pure (Sum.inl c :: t)

/-- Tokenize leniently for the WHATWG form decoder: a malformed `%` escape is
kept as a literal `%`. -/
def pctTokensLenient : List Char → List (Char ⊕ Nat)
  | [] => []
  | '%' :: h1 :: h2 :: rest =>
    match hexDigit h1, hexDigit h2 with
    | some d1, some d2 => Sum.inr (16 * d1 + d2) :: pctTokensLenient rest
    | _, _ => Sum.inl '%' :: pctTokensLenient (h1 :: h2 :: rest)
  | c :: rest => Sum.inl c :: pctTokensLenient rest

def isContByte (b : Nat) : Bool := 0x80 ≤ b && b < 0xC0

/-- Strict UTF-8 assembly of decoded bytes (continuation bytes must themselves
come from escapes, overlong forms, surrogates and out-of-range code points are
rejected): the second way `decodeURIComponent` throws `URIError`. -/
def utf8Assemble : List (Char ⊕ Nat) → Option (List Char)
  | [] => some []
  | Sum.inl c :: t => (utf8Assemble t).map (c :: ·)
  | Sum.inr b :: t =>
    if b < 0x80 then (utf8Assemble t).map (Char.ofNat b :: ·)
    else if b < 0xC2 then none
    else if b < 0xE0 then
      match t with
      | Sum.inr b2 :: t2 =>
        if isContByte b2 then
          (utf8Assemble t2).map (Char.ofNat ((b - 0xC0) * 64 + (b2 - 0x80)) :: ·)
        else none
      | _ => none
    else if b < 0xF0 then
      match t with
      | Sum.inr b2 :: Sum.inr b3 :: t3 =>
        if isContByte b2 && isContByte b3 then
          let cp := (b - 0xE0) * 4096 + (b2 - 0x80) * 64 + (b3 - 0x80)
          if cp < 0x800 ∨ (0xD800 ≤ cp ∧ cp ≤ 0xDFFF) then none
          else (utf8Assemble t3).map (Char.ofNat cp :: ·)
        else none
      | _ => none
    else if b < 0xF5 then
      match t with
      | Sum.inr b2 :: Sum.inr b3 :: Sum.inr b4 :: t4 =>
        if isContByte b2 && isContByte b3 && isContByte b4 then
          let cp := (b - 0xF0) * 262144 + (b2 - 0x80) * 4096 + (b3 - 0x80) * 64 + (b4 - 0x80)
          if cp < 0x10000 ∨ cp > 0x10FFFF then none
          else (utf8Assemble t4).map (Char.ofNat cp :: ·)
        else none
      | _ => none
    else none

/-- Lossy UTF-8 assembly: a malformed sequence decodes to U+FFFD and scanning
continues (the WHATWG search-parameter decoder never throws).  On a malformed
multi-byte sequence this model consumes the bytes it examined and emits one
U+FFFD, a slight simplification of WHATWG's maximal-subpart rule; no claim
depends on that corner. -/
def utf8AssembleLossyGo : Nat → List (Char ⊕ Nat) → List Char
  | 0, _ => []
  | _ + 1, [] => []
  | fuel + 1, Sum.inl c :: t => c :: utf8AssembleLossyGo fuel t
  | fuel + 1, Sum.inr b :: t =>
    if b < 0x80 then Char.ofNat b :: utf8AssembleLossyGo fuel t
    else if b < 0xC2 then '�' :: utf8AssembleLossyGo fuel t
    else if b < 0xE0 then
      match t with
      | Sum.inr b2 :: t2 =>
        if isContByte b2 then Char.ofNat ((b - 0xC0) * 64 + (b2 - 0x80)) :: utf8AssembleLossyGo fuel t2
        else '�' :: utf8AssembleLossyGo fuel t2
      | _ => '�' :: utf8AssembleLossyGo fuel t
    else if b < 0xF0 then
      match t with
      | Sum.inr b2 :: Sum.inr b3 :: t3 =>
        if isContByte b2 && isContByte b3 then
          let cp := (b - 0xE0) * 4096 + (b2 - 0x80) * 64 + (b3 - 0x80)
          if cp < 0x800 ∨ (0xD800 ≤ cp ∧ cp ≤ 0xDFFF) then '�' :: utf8AssembleLossyGo fuel t3
          else Char.ofNat cp :: utf8AssembleLossyGo fuel t3
        else '�' :: utf8AssembleLossyGo fuel t3
      | _ => '�' :: utf8AssembleLossyGo fuel t
    else if b < 0xF5 then
      match t with
      | Sum.inr b2 :: Sum.inr b3 :: Sum.inr b4 :: t4 =>
        if isContByte b2 && isContByte b3 && isContByte b4 then
          let cp := (b - 0xF0) * 262144 + (b2 - 0x80) * 4096 + (b3 - 0x80) * 64 + (b4 - 0x80)
          if cp < 0x10000 ∨ cp > 0x10FFFF then '�' :: utf8AssembleLossyGo fuel t4
          else Char.ofNat cp :: utf8AssembleLossyGo fuel t4
        else '�' :: utf8AssembleLossyGo fuel t4
      | _ => '�' :: utf8AssembleLossyGo fuel t
    else '�' :: utf8AssembleLossyGo fuel t

/-- Entry point for lossy assembly; `length + 1` fuel always suffices since
every step consumes at least one token. -/
def utf8AssembleLossy (toks : List (Char ⊕ Nat)) : List Char :=
  utf8AssembleLossyGo (toks.length + 1) toks

/-- Model of the platform `decodeURIComponent`: percent-decode with strict
UTF-8 validation; `none` models a thrown `URIError`, which the source does not
catch. -/
def decodeURIComponent (s : String) : Option String := do
  let toks ← pctTokens s.toList
  let cs ← utf8Assemble toks
  pure cs.asString

/-- Model of the WHATWG `application/x-www-form-urlencoded` value decoder used
by `URLSearchParams`: `+` becomes a space, percent escapes are decoded
lossily, and nothing ever throws. -/
def formDecode (s : String) : String :=
  (utf8AssembleLossy (pctTokensLenient (s.toList.map (fun c => if c = '+' then ' ' else c)))).asString

/-! ## JSON and the URL model -/

def isJsonWs (c : Char) : Bool := c = ' ' || c = '\t' || c = '\n' || c = '\r'

def isJsonDigit (c : Char) : Bool := '0' ≤ c && c ≤ '9'

/-- Parse the digits `cs` as a natural number accumulated onto `acc`. -/
def digitsToNat (acc : Nat) : List Char → Nat
  | [] => acc
  | c :: cs => digitsToNat (acc * 10 + (c.toNat - '0'.toNat)) cs

/-- A JSON number literal `-?(0|[1-9][0-9]*)(\.[0-9]+)?([eE][+-]?[0-9]+)?`
evaluated exactly as a rational (the model for JS float conversion). -/
def jsonNumberAt (s : List Char) : Option (ℚ × List Char) := do
  let (neg, s1) := match s with
    | '-' :: rest => (true, rest)
    | _ => (false, s)
  let (intPart, s2) ← match s1 with
    | '0' :: rest => some (([ '0' ] : List Char), rest)
    | c :: _ =>
      if isJsonDigit c ∧ c ≠ '0' then classPlus isJsonDigit s1 else none
    | [] => none
  let (fracPart, s3) ← match s2 with
    | '.' :: rest =>
      match classPlus isJsonDigit rest with
      | some (ds, r) => some (some ds, r)
      | none => none
    | _ => some (none, s2)
  let (expPart, s4) ← match s3 with
    | c :: rest =>
      if c = 'e' ∨ c = 'E' then
        let (esign, r1) := match rest with
          | '+' :: r => (1, r)
          | '-' :: r => (-1, r)
          | _ => (1, rest)
        match classPlus isJsonDigit r1 with
        | some (ds, r2) => some (some ((esign : Int), ds), r2)
        | none => none
      else some (none, s3)
    | [] => some (none, s3)
  let mantissa : ℚ :=
    let ip : ℚ := (digitsToNat 0 intPart : ℚ)
    match fracPart with
    | some ds => ip + (digitsToNat 0 ds : ℚ) / ((10 : ℚ) ^ ds.length)
    | none => ip
  let scaled : ℚ :=
    match expPart with
    | some (sgn, ds) =>
      let e := digitsToNat 0 ds
      if sgn = 1 then mantissa * (10 : ℚ) ^ e else mantissa / ((10 : ℚ) ^ e)
    | none => mantissa
  pure (if neg then -scaled else scaled, s4)

/-- A JSON string literal body after the opening quote.  Lone surrogates in
`\u` escapes are modelled as U+FFFD (Lean characters cannot hold surrogate
code points); no claim depends on that corner. -/
def jsonStringAt (fuel : Nat) (s : List Char) : Option (String × List Char) :=
  match fuel with
  | 0 => none
  | fuel + 1 =>
    match s with
    | [] => none
    | '"' :: rest => some ("", rest)
    | '\\' :: esc :: rest =>
      let simpleEsc : Option Char :=
        if esc = '"' then some '"'
        else if esc = '\\' then some '\\'
        else if esc = '/' then some '/'
        else if esc = 'b' then some (Char.ofNat 8)
        else if esc = 'f' then some (Char.ofNat 12)
        else if esc = 'n' then some '\n'
        else if esc = 'r' then some '\r'
        else if esc = 't' then some '\t'
        else none
      match simpleEsc with
      | some c => do
        let (tail, r) ← jsonStringAt fuel rest
        pure (String.singleton c ++ tail, r)
      | none =>
        if esc = 'u' then
          match rest with
          | h1 :: h2 :: h3 :: h4 :: rest2 => do
            let d1 ← hexDigit h1
            let d2 ← hexDigit h2
            let d3 ← hexDigit h3
            let d4 ← hexDigit h4
            let cp := ((d1 * 16 + d2) * 16 + d3) * 16 + d4
            if 0xD800 ≤ cp ∧ cp ≤ 0xDBFF then
              match rest2 with
              | '\\' :: 'u' :: g1 :: g2 :: g3 :: g4 :: rest3 => do
                let e1 ← hexDigit g1
                let e2 ← hexDigit g2
                let e3 ← hexDigit g3
                let e4 ← hexDigit g4
                let cp2 := ((e1 * 16 + e2) * 16 + e3) * 16 + e4
                if 0xDC00 ≤ cp2 ∧ cp2 ≤ 0xDFFF then do
                  let combined := 0x10000 + (cp - 0xD800) * 1024 + (cp2 - 0xDC00)
                  let (tail, r) ← jsonStringAt fuel rest3
                  pure (String.singleton (Char.ofNat combined) ++ tail, r)
                else do
                  let (tail, r) ← jsonStringAt fuel rest2
                  pure (String.singleton '�' ++ tail, r)
              | _ => do
                let (tail, r) ← jsonStringAt fuel rest2
                pure (String.singleton '�' ++ tail, r)
            else if 0xDC00 ≤ cp ∧ cp ≤ 0xDFFF then do
              let (tail, r) ← jsonStringAt fuel rest2
              pure (String.singleton '�' ++ tail, r)
            else do
              let (tail, r) ← jsonStringAt fuel rest2
              pure (String.singleton (Char.ofNat cp) ++ tail, r)
          | _ => none
        else none
    | c :: rest =>
      if c.toNat < 0x20 then none
      else do
        let (tail, r) ← jsonStringAt fuel rest
        pure (String.singleton c ++ tail, r)

mutual

/-- One JSON value at the head of the input (whitespace before it already
skipped by the caller). -/
def jsonValueAt (fuel : Nat) (s : List Char) : Option (JVal × List Char) :=
  match fuel with
  | 0 => none
  | fuel + 1 =>
    match s with
    | [] => none
    | c :: rest =>
      if c = '{' then jsonObjFields fuel (rest.dropWhile isJsonWs) true []
      else if c = '[' then jsonArrItems fuel (rest.dropWhile isJsonWs) true []
      else if c = '"' then do
        let (str, r) ← jsonStringAt fuel rest
        pure (jstr str, r)
      else if c = 't' then do
        let r ← matchLit false "rue".toList rest
        pure (jbool true, r)
      else if c = 'f' then do
        let r ← matchLit false "alse".toList rest
        pure (jbool false, r)
      else if c = 'n' then do
        let r ← matchLit false "ull".toList rest
        pure (jnull, r)
      else do
        let (q, r) ← jsonNumberAt (c :: rest)
        pure (jnum q, r)

/-- The members of a JSON object after `{` and following whitespace
(duplicate keys behave as in JS: last value wins, first position kept).
`first` is true only for the position straight after `{`, where `}` closes an
empty object. -/
def jsonObjFields (fuel : Nat) (s : List Char) (first : Bool) (acc : JsObj JVal) :
    Option (JVal × List Char) :=
  match fuel with
  | 0 => none
  | fuel + 1 =>
    match s with
    | '}' :: rest => if first then some (jobj acc, rest) else none
    | _ => do
      let (key, r1) ← match s with
        | '"' :: rest => jsonStringAt fuel rest
        | _ => none
      let r2 := r1.dropWhile isJsonWs
      let r3 ← match r2 with
        | ':' :: rest => some (rest.dropWhile isJsonWs)
        | _ => none
      let (v, r4) ← jsonValueAt fuel r3
      let r5 := r4.dropWhile isJsonWs
      let acc' := objSet acc key v
      match r5 with
      | ',' :: rest => jsonObjFields fuel (rest.dropWhile isJsonWs) false acc'
      | '}' :: rest => some (jobj acc', rest)
      | _ => none

/-- The items of a JSON array after `[` and following whitespace. -/
def jsonArrItems (fuel : Nat) (s : List Char) (first : Bool) (acc : List JVal) :
    Option (JVal × List Char) :=
  match fuel with
  | 0 => none
  | fuel + 1 =>
    match s with
    | ']' :: rest => if first then some (jarr acc.reverse, rest) else none
    | _ => do
      let (v, r1) ← jsonValueAt fuel s
      let r2 := r1.dropWhile isJsonWs
      let acc' := v :: acc
      match r2 with
      | ',' :: rest => jsonArrItems fuel (rest.dropWhile isJsonWs) false acc'
      | ']' :: rest => some (jarr acc'.reverse, rest)
      | _ => none

end

/-- Model of the platform `JSON.parse`: strict JSON grammar; `none` models a
thrown `SyntaxError`.  The fuel `length + 1` is always sufficient because
every recursive step first consumes at least one input character. -/
def jsonParse (s : String) : Option JVal := do
  let cs := s.toList.dropWhile isJsonWs
  let (v, rest) ← jsonValueAt (s.toList.length + 1) cs
  if rest.dropWhile isJsonWs = [] then pure v else none

/-- Result of the platform URL parse: the pieces the source reads
(`origin`, `pathname`, and the decoded search parameters in order). -/
structure URLRec where
  origin : String
  pathname : String
  searchParams : List (String × String)

/-- Strip leading and trailing C0-control-or-space characters, as the WHATWG
URL parser does to its input. -/
def trimC0 (cs : List Char) : List Char :=
  ((cs.dropWhile (fun c => c.toNat ≤ 0x20)).reverse.dropWhile (fun c => c.toNat ≤ 0x20)).reverse

/-- Decode one `key=value` piece of a query string (no `=` gives an empty
value), with WHATWG form decoding of both sides. -/
def queryPair (piece : List Char) : String × String :=
  match splitFirstList ['='] piece with
  | some (k, v) => (formDecode k.asString, formDecode v.asString)
  | none => (formDecode piece.asString, "")

/-- Parse a query string (the text after `?`) into its decoded pairs, in
order, skipping empty pieces. -/
def parseQS (q : List Char) : List (String × String) :=
  ((splitOnChar '&' q).filter (fun p => p ≠ [])).map queryPair

/-- Modelled from the spec: the platform `new URL` constructor ("attempt
strict URL parsing"), simplified to absolute `http`/`https` URLs with a plain
host — no user-info, IPv6 literals, or percent-encoded hosts (inputs using
them are rejected), no path normalization and no re-encoding.  `none` models
the constructor throwing, after which the source falls back to the raw
token. -/
def parseURL (s : String) : Option URLRec := do
  let cs := trimC0 (s.toList.filter (fun c => c ≠ '\t' && c ≠ '\n' && c ≠ '\r'))
  let (scheme, rest) ← match matchLit true "https://".toList cs with
    | some r => some ("https", r)
    | none =>
      match matchLit true "http://".toList cs with
      | some r => some ("http", r)
      | none => none
  let hostPort := rest.takeWhile (fun c => c ≠ '/' && c ≠ '?' && c ≠ '#')
  let after := rest.dropWhile (fun c => c ≠ '/' && c ≠ '?' && c ≠ '#')
  if hostPort = [] then none
  else if hostPort.contains '@' ∨ hostPort.contains '[' ∨ hostPort.contains '%' then none
  else do
    let (host, portDigits) ← match splitFirstList [':'] hostPort with
      | some (h, p) =>
        if h = [] then none
        else if p.all isJsonDigit then some (h, p) else none
      | none => some (hostPort, [])
    let host := (host.map Char.toLower).asString
    let portPart :=
      if portDigits = [] then ""
      else
        let pn := digitsToNat 0 portDigits
        if (scheme = "http" ∧ pn = 80) ∨ (scheme = "https" ∧ pn = 443) then ""
        else ":" ++ toString pn
    let pathname :=
      match after with
      | '/' :: _ => (after.takeWhile (fun c => c ≠ '?' && c ≠ '#')).asString
      | _ => "/"
    let afterPath := after.dropWhile (fun c => c ≠ '?' && c ≠ '#')
    let search :=
      match afterPath with
      | '?' :: q => q.takeWhile (fun c => c ≠ '#')
      | _ => []
    pure { origin := scheme ++ "://" ++ host ++ portPart
           pathname := pathname
           searchParams := parseQS search }

/-! ## The curl command parser (`CurlParser`) -/

/-- The structured result of `CurlParser.parse` (interface `ParsedCurl` in
`types.ts`); `data` is absent when no body flag matched. -/
structure ParsedCurl where
  method : String
  url : String
  headers : JsObj String
  queryParams : JsObj String
  data : Option JVal
  contentType : Option String

/-- A JS record of strings embedded as a `JVal` object. -/
def strObjToJVal (o : JsObj String) : JVal :=
  jobj (o.map (fun kv => (kv.1, jstr kv.2)))

/-- JS `pair.split("=")` destructured as `[key, val]`: the part before the
first `=` and the part between the first and second `=`; `val` is undefined
(`none`) when there is no `=` at all. -/
def eqSplitKV (s : String) : String × Option String :=
  let parts := (splitOnChar '=' s.toList).map List.asString
  (parts.headD "", parts.get? 1)

/-- The body-decoding loop shared by the url-encoded and raw-as-form branches:
split each chunk at `&`, split each piece at `=`, keep pieces that have a
value, percent-decoding it (a decode failure is a thrown `URIError`, hence
`none`). -/
def decodePairsInto (acc : JsObj String) (chunk : String) : Option (JsObj String) :=
  (splitOnChar '&' chunk.toList).foldlM
    (fun acc2 kv =>
      let (key, val?) := eqSplitKV kv.asString
      match val? with
      | some val => do
        let dec ← decodeURIComponent val
        pure (objSet acc2 key dec)
      | none => pure acc2)
    acc

namespace CurlParser

/-- Embedding of `CurlParser.parse`.  `none` models an uncaught `URIError`
escaping from `decodeURIComponent` in the body-processing loops (the only
statement of the function that can throw). -/
def parse (curlCommand : String) : Option ParsedCurl :=
  let cs := curlCommand.toList
  -- Extract URL + query params
  let urlQP : String × JsObj String :=
    match scanFirst tryUrlAt cs with
    | some (tok, _) =>
      match parseURL tok with
      | some u => (u.origin ++ u.pathname,
          u.searchParams.foldl (fun acc kv => objSet acc kv.1 kv.2) [])
      | none => (tok, [])
    | none => ("", [])
  -- Extract explicit -X METHOD
  let methodMatch := scanFirst tryXAt cs
  -- Extract headers (each content-type header, case-insensitively named,
  -- reseeds contentType)
  let headerCaps := scanAll tryHdrAt (cs.length + 1) cs
  let headersCT : JsObj String × Option String :=
    headerCaps.foldl
      (fun acc cap =>
        let kv := headerSplit cap
        (objSet acc.1 kv.1 kv.2,
         if jsToLower kv.1 = "content-type" then some kv.2 else acc.2))
      ([], none)
  let headers := headersCT.1
  let ct0 := headersCT.2
  -- Gather all body/form flags
  let dataRawMatches := scanAll tryDataRawAt (cs.length + 1) cs
  let dataMatches := scanAll tryDataAt (cs.length + 1) cs
  let urlEncMatches := scanAll tryUrlEncAt (cs.length + 1) cs
  let formMatches := scanAll tryFormAt (cs.length + 1) cs
  -- If there is any body/form but no explicit -X, assume POST
  let method :=
    match methodMatch with
    | some (verb, _) => jsToUpper verb
    | none =>
      if dataRawMatches ≠ [] ∨ dataMatches ≠ [] ∨ urlEncMatches ≠ [] ∨ formMatches ≠ [] then
        "POST"
      else "GET"
  let base : ParsedCurl :=
    { method := method, url := urlQP.1, headers := headers, queryParams := urlQP.2,
      data := none, contentType := ct0 }
  -- Process multipart form fields
  if formMatches ≠ [] then
    let dataMap := formMatches.foldl
      (fun acc pair =>
        let (key, val?) := eqSplitKV pair
        match val? with
        | some val => objSet acc key val
        | none => acc)
      []
    some { base with contentType := some "multipart/form-data",
                     data := some (strObjToJVal dataMap) }
  -- Process URL-encoded bodies
  else if dataMatches ≠ [] ∨ urlEncMatches ≠ [] then do
    let ct := match ct0 with
      | some s => if s = "" then "application/x-www-form-urlencoded" else s
      | none => "application/x-www-form-urlencoded"
    let dataMap ← (dataMatches ++ urlEncMatches).foldlM decodePairsInto []
    pure { base with contentType := some ct, data := some (strObjToJVal dataMap) }
  -- Process raw JSON or other payloads
  else if dataRawMatches ≠ [] then
    let raw := joinSep "&" dataRawMatches
    if ct0 = some "application/x-www-form-urlencoded" then do
      let dataMap ← decodePairsInto [] raw
      pure { base with data := some (strObjToJVal dataMap) }
    else
      match jsonParse raw with
      | some v => some { base with data := some v, contentType := some "application/json" }
      | none => some { base with data := some (jstr raw), contentType := some "text/plain" }
  else
    some base

/-! ### sanitize -/

/-- Global regex replacement: at each position, if the pattern matches,
emit the replacement and resume after the match; otherwise copy one character.
Fuel-driven; every pattern used consumes at least one character per match, so
`length + 1` fuel is always sufficient. -/
def replAll (f : List Char → Option (List Char)) (repl : List Char) :
    Nat → List Char → List Char
  | 0, s => s
  | fuel + 1, s =>
    match f s with
    | some rest => repl ++ replAll f repl fuel rest
    | none =>
      match s with
      | [] => []
      | c :: cs => c :: replAll f repl fuel cs

/-- One pass of a global replacement over a whole string. -/
def replAllS (f : List Char → Option (List Char)) (repl : String) (s : List Char) :
    List Char :=
  replAll f repl.toList (s.length + 1) s

/-- The pattern `-H\s+<q>Authorization:[^<q>]+<q>` with the `gi` flags, at one
position (`q` is the quote character of the respective source line). -/
def tryAuthAt (q : Char) (s : List Char) : Option (List Char) := do
  let r1 ← matchLit true "-H".toList s
  let r2 ← wsPlus r1
  let r3 ← matchLit false [q] r2
  let r4 ← matchLit true "Authorization:".toList r3
  let (_, r5) ← classPlus (fun c => c ≠ q) r4
  matchLit false [q] r5

/-- The per-header denylist pattern
`-H\s+'<h>:[^']+'|\s*-H\s+"<h>:[^"]+"` with the `gi` flags, at one position. -/
def tryDenyAt (h : String) (s : List Char) : Option (List Char) :=
  (do
    let r1 ← matchLit true "-H".toList s
    let r2 ← wsPlus r1
    let r3 ← matchLit false ['\''] r2
    let r4 ← matchLit true (h ++ ":").toList r3
    let (_, r5) ← classPlus (fun c => c ≠ '\'') r4
    matchLit false ['\''] r5) <|>
  (do
    let r0 := s.dropWhile isJsSpace
    let r1 ← matchLit true "-H".toList r0
    let r2 ← wsPlus r1
    let r3 ← matchLit false ['"'] r2
    let r4 ← matchLit true (h ++ ":").toList r3
    let (_, r5) ← classPlus (fun c => c ≠ '"') r4
    matchLit false ['"'] r5)

/-- Index of the last newline in a list, if any. -/
def lastIdxNl : List Char → Option Nat
  | [] => none
  | c :: cs =>
    match lastIdxNl cs with
    | some i => some (i + 1)
    | none => if c = '\n' then some 0 else none

/-- The pattern `\\\s*\n` at one position: a backslash, then the whitespace
run after it up to (and including) its last newline — the greedy `\s*`
backtracking until the final `\n` can match. -/
def tryContAt (s : List Char) : Option (List Char) :=
  match s with
  | '\\' :: rest =>
    let run := rest.takeWhile isJsSpace
    match lastIdxNl run with
    | some i => some (rest.drop (i + 1))
    | none => none
  | _ => none

/-- The pattern `\s*-H\s+` (case-sensitive) at one position: greedy leading
whitespace, the literal `-H`, then mandatory whitespace. -/
def tryFixHAt (s : List Char) : Option (List Char) := do
  let r0 := s.dropWhile isJsSpace
  let r1 ← matchLit false "-H".toList r0
  wsPlus r1

/-- The browser-header denylist of the source, in its iteration order. -/
def headersToRemove : List String :=
  ["accept-encoding", "accept-language", "sec-fetch-dest", "sec-fetch-mode",
   "sec-fetch-site", "user-agent", "priority", "referer", "origin", "cookie",
   "connection", "cache-control", "pragma", "accept"]

/-- Embedding of `CurlParser.sanitize`: drop Authorization and denylisted
headers, collapse line continuations and whitespace runs, normalize `-H`
spacing, and trim. -/
def sanitize (curlCommand : String) : String :=
  let s0 := curlCommand.toList
  let s1 := replAllS (tryAuthAt '\'') "" s0
  let s2 := replAllS (tryAuthAt '"') "" s1
  let s3 := headersToRemove.foldl (fun acc h => replAllS (tryDenyAt h) "" acc) s2
  let s4 := replAllS tryContAt " " s3
  let s5 := replAllS wsPlus " " s4
  let s6 := replAllS tryFixHAt " -H " s5
  jsTrim s6.asString

end CurlParser

/-! ## OpenAPI schemas and the generator (`OpenAPIGenerator.ts`) -/

/-- The `type` strings an `OpenAPISchema` node can carry. -/
inductive SType : Type where
  | string | number | integer | boolean | array | object
  deriving DecidableEq

/-- An `OpenAPISchema` node (interface in `types.ts`): every field is
optional; a field is `none` exactly when the source's object literal does not
set it.  The source's `example` field is named `exampleVal` here because
`example` is a Lean keyword, and `$ref` is named `ref`. -/
inductive Schema : Type where
  | mk (type : Option SType) (properties : Option (List (String × Schema)))
       (required : Option (List String)) (items : Option Schema)
       (exampleVal : Option JVal) (nullable : Option Bool) (ref : Option String) : Schema

def Schema.type : Schema → Option SType
  | .mk t _ _ _ _ _ _ => t

def Schema.properties : Schema → Option (List (String × Schema))
  | .mk _ p _ _ _ _ _ => p

def Schema.required : Schema → Option (List String)
  | .mk _ _ r _ _ _ _ => r

def Schema.items : Schema → Option Schema
  | .mk _ _ _ i _ _ _ => i

def Schema.exampleVal : Schema → Option JVal
  | .mk _ _ _ _ e _ _ => e

def Schema.nullable : Schema → Option Bool
  | .mk _ _ _ _ _ n _ => n

def Schema.ref : Schema → Option String
  | .mk _ _ _ _ _ _ r => r

/-- The `$ref` prefix every reference the generator writes uses. -/
def refPre : String := "#/components/schemas/"

/-- A bare `{$ref: "#/components/schemas/<name>"}` node. -/
def refSchema (name : String) : Schema :=
  .mk none none none none none none (some (refPre ++ name))

/-- The `{type: "string", nullable: true}` node produced for null property
values. -/
def strNullable : Schema := .mk (some .string) none none none none (some true) none

/-- Embedding of `getOpenAPIType` (its checks in source order). -/
def getOpenAPIType : JVal → SType
  | jarr _ => .array
  | jnull => .object
  | jobj _ => .object
  | jnum q => if q.den = 1 then .integer else .number
  | jbool _ => .boolean
  | jstr _ => .string

/-- The inline `key.charAt(0).toUpperCase() + key.slice(1)` of the schema-name
minting sites. -/
def capFirst (s : String) : String :=
  match s.toList with
  | [] => ""
  | c :: rest => (c.toUpper :: rest).asString

/-- Modelled from the spec: the `capitalizeFirstLetter` utility imported from
`src/utils`, whose file is absent from the sources; per the spec it
"capitaliz[es] the operation id's first letter" (and is likewise applied to
tags and the summary fallback). -/
def capitalizeFirstLetter (s : String) : String := capFirst s

/-- Embedding of `generateSchema`.  The source's `depth` argument is carried
as the fuel `101 - depth`: the guard `depth > 100` is the fuel-0 case, and
each recursive call (`depth + 1`) passes `fuel - 1`.  The registry `schemas`
is threaded exactly as the source mutates its shared `schemas` object. -/
def genPropsStep (rec : JVal → String → JsObj Schema → Schema × JsObj Schema)
    (pfx : String) (acc : JsObj Schema × JsObj Schema) (kv : String × JVal) :
    JsObj Schema × JsObj Schema :=
  match kv.2 with
  | jnull => (objSet acc.1 kv.1 strNullable, acc.2)
  | jarr (v :: _) =>
    let itemName := pfx ++ capFirst kv.1 ++ "Item"
    let r := rec v itemName acc.2
    (objSet acc.1 kv.1
       (.mk (some .array) none none (some (refSchema itemName)) none none none),
     objSet r.2 itemName r.1)
  | jarr [] =>
    (objSet acc.1 kv.1
       (.mk (some .array) none none
         (some (.mk (some .object) (some []) none none none none none)) none none none),
     acc.2)
  | jobj _ =>
    let nestedName := pfx ++ capFirst kv.1
    let r := rec kv.2 nestedName acc.2
    (objSet acc.1 kv.1 (refSchema nestedName), objSet r.2 nestedName r.1)
  | _ =>
    (objSet acc.1 kv.1
       (.mk (some (getOpenAPIType kv.2)) none none none (some kv.2) none none),
     acc.2)

def generateSchemaGo : Nat → JVal → String → JsObj Schema → Schema × JsObj Schema
  | 0, _, _, schemas => (.mk (some .object) (some []) none none none none none, schemas)
  | fuel + 1, data, pfx, schemas =>
    match data with
    | jarr (x :: _) =>
      let itemName := pfx ++ "Item"
      let r := generateSchemaGo fuel x itemName schemas
      (.mk (some .array) none none (some (refSchema itemName)) none none none,
       objSet r.2 itemName r.1)
    | jarr [] =>
      (.mk (some .array) none none
        (some (.mk (some .object) (some []) (some []) none none none none)) none none none,
       schemas)
    | jobj fields =>
      let pr := fields.foldl
        (genPropsStep (fun d p r => generateSchemaGo fuel d p r) pfx) ([], schemas)
      (.mk (some .object) (some pr.1) none none none none none, pr.2)
    | _ =>
      (.mk (some (getOpenAPIType data)) (some []) none none (some data) none none, schemas)

/-- `generateSchema` at the source's entry depth 0. -/
def generateSchema (data : JVal) (pfx : String) (schemas : JsObj Schema) :
    Schema × JsObj Schema :=
  generateSchemaGo 101 data pfx schemas

/-- The chronological trace of registrations (`schemas[name] = s` events) a
`generateSchemaGo` call performs, as (name, schema) pairs.  The recorded
schema values use an empty registry, which is harmless because the schema a
call returns does not depend on the registry (proved below). -/
def regTraceFieldG (recT : JVal → String → List (String × Schema))
    (recS : JVal → String → JsObj Schema → Schema × JsObj Schema)
    (pfx : String) (kv : String × JVal) : List (String × Schema) :=
  match kv.2 with
  | jnull => []
  | jarr (v :: _) =>
    let itemName := pfx ++ capFirst kv.1 ++ "Item"
    recT v itemName ++ [(itemName, (recS v itemName []).1)]
  | jarr [] => []
  | jobj _ =>
    let nestedName := pfx ++ capFirst kv.1
    recT kv.2 nestedName ++ [(nestedName, (recS kv.2 nestedName []).1)]
  | _ => []

def regTraceGo : Nat → JVal → String → List (String × Schema)
  | 0, _, _ => []
  | fuel + 1, data, pfx =>
    match data with
    | jarr (x :: _) =>
      let itemName := pfx ++ "Item"
      regTraceGo fuel x itemName ++ [(itemName, (generateSchemaGo fuel x itemName []).1)]
    | jobj fields =>
      fields.foldl
        (fun acc kv =>
          acc ++ regTraceFieldG (fun d p => regTraceGo fuel d p)
            (fun d p r => generateSchemaGo fuel d p r) pfx kv)
        []
    | _ => []

/-- The registry names a call mints, in registration order. -/
def mintedNames (fuel : Nat) (data : JVal) (pfx : String) : List String :=
  (regTraceGo fuel data pfx).map Prod.fst

/-- All `$ref` strings reachable in a schema tree within `rfuel` nesting
levels (every schema the generator builds is finitely deep, so quantifying
over `rfuel` captures every occurrence). -/
def schemaRefsGo : Nat → Schema → List String
  | 0, _ => []
  | rfuel + 1, .mk _ props _ items _ _ r =>
    r.toList ++
    (match items with
     | some s => schemaRefsGo rfuel s
     | none => []) ++
    (match props with
     | some ps => ps.foldl (fun acc kv => acc ++ schemaRefsGo rfuel kv.2) []
     | none => [])

/-- Embedding of `generateOperationId`: strip braces, turn `/` into `_`,
prefix the lower-cased method, and trim leading/trailing underscores. -/
def generateOperationId (method : String) (path : String) : String :=
  let cleanPath := ((path.toList.filter (fun c => c ≠ '{' && c ≠ '}')).map
    (fun c => if c = '/' then '_' else c)).asString
  let j := (jsToLower method ++ "_" ++ cleanPath).toList
  ((j.dropWhile (· = '_')).reverse.dropWhile (· = '_')).reverse.asString

/-- The pattern `{([^}]+)}` at one position (capture without the braces). -/
def tryBraceAt (s : List Char) : Option (String × List Char) :=
  match s with
  | '{' :: rest => do
    let (cap, r2) ← classPlus (fun c => c ≠ '}') rest
    let r3 ← matchLit false ['}'] r2
    pure (cap.asString, r3)
  | _ => none

/-- `s.match(/{([^}]+)}/g)` with the braces sliced off each match. -/
def braceParams (s : String) : List String :=
  scanAll tryBraceAt (s.toList.length + 1) s.toList

/-- One entry of the parameter list `generateParameters` builds.  The nested
`schema` object is flattened into `schemaType` / `schemaItems` (whether an
`items: {type: "string"}` object was attached) / `schemaProps` (whether an
empty `properties` object was attached); no parameter schema ever carries a
`$ref`. -/
structure Param where
  name : String
  location : String
  required : Bool
  schemaType : String
  schemaItems : Bool
  schemaProps : Bool
  exampleVal : Option JVal

/-- Embedding of `generateParameters`: path parameters from the template (or
the path), query parameters minus path-parameter names with speculative JSON
refinement, then header parameters. -/
def generateParameters (curl : ParsedCurl) (pathName : String)
    (urlTemplate : Option String) : List Param :=
  let pathParams :=
    match urlTemplate with
    | some t => if t = "" then braceParams pathName else braceParams t
    | none => braceParams pathName
  let pp := pathParams.map (fun p =>
    { name := p, location := "path", required := true, schemaType := "string",
      schemaItems := false, schemaProps := false, exampleVal := none })
  let qp := curl.queryParams.filterMap (fun kv =>
    if pathParams.contains kv.1 then none
    else
      let j := jsonParse kv.2
      let ex : JVal :=
        match j with
        | some p => p
        | none => jstr kv.2
      let ty : String :=
        match j with
        | some (jarr _) => "array"
        | some (jobj _) => "object"
        | some jnull => "object"
        | _ => "string"
      some { name := kv.1, location := "query", required := false, schemaType := ty,
             schemaItems := ty = "array", schemaProps := ty = "object",
             exampleVal := some ex })
  let hp := curl.headers.map (fun kv =>
    ({ name := kv.1, location := "header", required := false, schemaType := "string",
       schemaItems := false, schemaProps := false, exampleVal := some (jstr kv.2) } : Param))
  pp ++ qp ++ hp

/-- JS `String(v)`, for the values `URLSearchParams` record initialization
stringifies.  Non-integer numbers are rendered as a placeholder (no claim
depends on their exact decimal rendering). -/
def jsToStringGo : Nat → JVal → String
  | 0, _ => ""
  | fuel + 1, v =>
    match v with
    | jnull => "null"
    | jbool b => if b then "true" else "false"
    | jnum q => if q.den = 1 then toString q.num else "<non-integer>"
    | jstr s => s
    | jarr xs => joinSep "," (xs.map (jsToStringGo fuel))
    | jobj _ => "[object Object]"

def jsToString (v : JVal) : String := jsToStringGo 101 v

/-- Model of `parseFormData` (`new URLSearchParams(formData)` read back into a
record): a string init is parsed as a query string (WHATWG semantics, leading
`?` stripped); an object init is read as a record with stringified values; a
sequence (array) init requires two-element pairs, anything else being a
thrown TypeError (`none`); remaining primitives are stringified and parsed as
query strings. -/
def parseFormData : JVal → Option (JsObj String)
  | jstr s =>
    let cs := s.toList
    let cs := match cs with
      | '?' :: rest => rest
      | _ => cs
    some ((parseQS cs).foldl (fun acc kv => objSet acc kv.1 kv.2) [])
  | jobj fields => some (fields.foldl (fun acc kv => objSet acc kv.1 (jsToString kv.2)) [])
  | jarr xs =>
    xs.foldlM
      (fun acc el =>
        match el with
        | jarr [k, v] => some (objSet acc (jsToString k) (jsToString v))
        | _ => none)
      []
  | v => some ((parseQS (jsToString v).toList).foldl (fun acc kv => objSet acc kv.1 kv.2) [])

/-- Embedding of `getContentType` (the form-data branch returns its input
unchanged, so only the defaulting matters). -/
def getContentType : Option String → String
  | none => "application/json"
  | some ct => if ct = "" then "application/json" else ct

/-- JS `delete o[k]`. -/
def jsDelete {α : Type} (o : JsObj α) (k : String) : JsObj α :=
  o.filter (fun kv => kv.1 ≠ k)

/-- JS `s.split("?")[0]`. -/
def splitQHead (s : String) : String := (s.toList.takeWhile (· ≠ '?')).asString

/-- JS `s.replace(/^https?:\/\/[^\/]+/, "")` (case-sensitive, anchored). -/
def stripOrigin (s : String) : String :=
  let cs := s.toList
  let afterScheme : Option (List Char) :=
    match matchLit false "https://".toList cs with
    | some r => some r
    | none => matchLit false "http://".toList cs
  match afterScheme with
  | some (c :: rest) => if c = '/' then s else ((c :: rest).dropWhile (· ≠ '/')).asString
  | _ => s

/-- The configuration record `OpenAPIOptions` (the CLI wiring passes
`summary` through it; `version` is unused by `generate` and omitted). -/
structure OpenAPIOptions where
  operationName : Option String := none
  urlTemplate : Option String := none
  tags : Option (List String) := none
  outputPath : Option String := none
  appendPath : Option String := none
  summary : Option String := none

/-- The `requestBody` block: `{required: true, content: {[ct]: {schema:
{$ref}}}}` flattened to its content-type key and `$ref` string. -/
structure RequestBodyObj where
  contentType : String
  ref : String
  deriving DecidableEq

/-- The single operation object `generate` builds.  `responseRef` is the
`$ref` inside `responses."200".content."application/json".schema`; the
constant `description` and `required` fields are omitted. -/
structure Operation where
  operationId : String
  summary : String
  tags : List String
  parameters : List Param
  requestBody : Option RequestBodyObj
  responseRef : String

/-- The document `generate` returns.  Its `paths` object holds exactly one
path with exactly one method, flattened here to `pathName` / `methodKey` /
`operation`; the constant `openapi` and `info` fields are omitted. -/
structure GenDoc where
  pathName : String
  methodKey : String
  operation : Operation
  componentsSchemas : JsObj Schema

/-- The request-schema step of `generate` (`if (curl.data) ...`): `none`
models the `URLSearchParams` TypeError escaping from `parseFormData`;
otherwise the optional request schema plus the updated registry. -/
def genRequestSchema (curl : ParsedCurl) (schemaPfx : String) (reg : JsObj Schema) :
    Option (Option Schema × JsObj Schema) :=
  match curl.data with
  | some d =>
    if jsTruthy d then
      if curl.contentType = some "application/x-www-form-urlencoded" then
        match parseFormData d with
        | some fd =>
          let r := generateSchemaGo 101 (strObjToJVal fd) (schemaPfx ++ "Request") reg
          some (some r.1, r.2)
        | none => none
      else
        let r := generateSchemaGo 101 d (schemaPfx ++ "Request") reg
        some (some r.1, r.2)
    else some (none, reg)
  | none => some (none, reg)

/-- The effective path template of `generate`
(`options.urlTemplate || curl.url.split("?")[0].replace(...)`). -/
def genPathName (curl : ParsedCurl) (options : OpenAPIOptions) : String :=
  match options.urlTemplate with
  | some t => if t = "" then stripOrigin (splitQHead curl.url) else t
  | none => stripOrigin (splitQHead curl.url)

/-- The effective operation id of `generate`
(`options.operationName || generateOperationId(...)`). -/
def genOperationId (curl : ParsedCurl) (options : OpenAPIOptions) (pathName : String) :
    String :=
  match options.operationName with
  | some n => if n = "" then generateOperationId curl.method pathName else n
  | none => generateOperationId curl.method pathName

/-- The operation object `generate` assembles. -/
def genOperation (curl : ParsedCurl) (options : OpenAPIOptions) (pathName : String)
    (operationId : String) (schemaPfx : String) (requestSchema? : Option Schema) :
    Operation :=
  let defaultSummary :=
    match options.operationName with
    | some n => if n = "" then curl.method ++ " " ++ pathName else capitalizeFirstLetter n
    | none => curl.method ++ " " ++ pathName
  { operationId := operationId
    summary :=
      match options.summary with
      | some s => if s = "" then defaultSummary else s
      | none => defaultSummary
    tags :=
      match options.tags with
      | some ts => ts.map capitalizeFirstLetter
      | none => []
    parameters := generateParameters curl pathName options.urlTemplate
    requestBody :=
      match requestSchema? with
      | some _ =>
        some { contentType := getContentType curl.contentType,
               ref := refPre ++ (schemaPfx ++ "Request") }
      | none => none
    responseRef := refPre ++ (schemaPfx ++ "Response") }

/-- The entry list of the `components.schemas` object literal: the response
schema, the request schema when one was produced, the query schema when the
filtered query parameters are non-empty, then the spread registry. -/
def genEntries (schemaPfx : String) (respSchema : Schema) (requestSchema? : Option Schema)
    (filteredQueryParams : JsObj String) (querySchema : Schema) (reg3 : JsObj Schema) :
    List (String × Schema) :=
  [(schemaPfx ++ "Response", respSchema)] ++
  (match requestSchema? with
   | some rs => [(schemaPfx ++ "Request", rs)]
   | none => []) ++
  (if filteredQueryParams.length > 0 then [(schemaPfx ++ "Query", querySchema)] else []) ++
  reg3

/-- Embedding of `generate`.  `none` models the one way it can throw: the
`URLSearchParams` TypeError inside `parseFormData` on a malformed
sequence-style body. -/
def generate (curl : ParsedCurl) (response : JVal) (options : OpenAPIOptions) :
    Option GenDoc :=
  let pathName := genPathName curl options
  let operationId := genOperationId curl options pathName
  let schemaPfx := capitalizeFirstLetter operationId
  let r1 := generateSchemaGo 101 response schemaPfx []
  match genRequestSchema curl schemaPfx r1.2 with
  | none => none
  | some (requestSchema?, reg2) =>
    let filteredQueryParams :=
      (braceParams pathName).foldl (fun acc p => jsDelete acc p) curl.queryParams
    let r3 := generateSchemaGo 101 (strObjToJVal filteredQueryParams)
      (schemaPfx ++ "Query") reg2
    some
      { pathName := pathName
        methodKey := jsToLower curl.method
        operation := genOperation curl options pathName operationId schemaPfx requestSchema?
        componentsSchemas :=
          objLit (genEntries schemaPfx r1.1 requestSchema? filteredQueryParams r3.1 r3.2) }

/-- Every `$ref` string occurring in a generated document, to `rfuel` schema
nesting levels: the requestBody reference, the 200-response reference, and
the references inside every registered component schema. -/
def docRefs (rfuel : Nat) (doc : GenDoc) : List String :=
  (match doc.operation.requestBody with
   | some rb => [rb.ref]
   | none => []) ++
  [doc.operation.responseRef] ++
  doc.componentsSchemas.foldl (fun acc kv => acc ++ schemaRefsGo rfuel kv.2) []

/-- A registry is reference-closed when every `$ref` inside any of its
schemas is `refPre ++ n` for a key `n` of the registry. -/
def refsClosedReg (reg : JsObj Schema) : Prop :=
  ∀ s ∈ reg.map Prod.snd, ∀ rfuel r, r ∈ schemaRefsGo rfuel s →
    ∃ n, r = refPre ++ n ∧ n ∈ jsKeys reg

/-! ## Merging with an existing document (`mergeWithExisting`) -/

/-- An operation as the merge logic sees it: only `operationId` is read, the
rest of the operation object is carried opaquely (the source treats documents
as `any`). -/
structure MOp (γ : Type) where
  operationId : Option String
  rest : γ
  deriving DecidableEq

/-- The freshly generated document handed to the merge step: it always has
`components.schemas` (as `generate`'s output does; the source reads and
assigns `openapi.components.schemas` unconditionally). -/
structure MDocNew (γ σ : Type) where
  paths : JsObj (JsObj (MOp γ))
  componentsSchemas : JsObj σ
  deriving DecidableEq

/-- The document loaded from the append path: `components` or
`components.schemas` may be absent (the source reads it through `?.`). -/
structure MDocOld (γ σ : Type) where
  paths : JsObj (JsObj (MOp γ))
  componentsSchemas : Option (JsObj σ)
  deriving DecidableEq

/-- The `SwagglerException` error carrier (`message`, machine-readable
`code`, structured `details`). -/
structure SwagglerException where
  message : String
  code : String
  details : JsObj String
  deriving DecidableEq

/-- Inner loop of `findDuplicateOperationId`: first method of a path item
whose operation's `operationId` strictly equals the probed id. -/
def findInPathItem {γ : Type} (methods : JsObj (MOp γ)) (opId : String) : Option String :=
  match methods with
  | [] => none
  | (m, op) :: rest => if op.operationId = some opId then some m else findInPathItem rest opId

/-- Outer loop of `findDuplicateOperationId` over the existing paths grid. -/
def findDupGo {γ : Type} (opId : String) : JsObj (JsObj (MOp γ)) → Option (String × String)
  | [] => none
  | (p, item) :: rest =>
    match findInPathItem item opId with
    | some m => some (p, m)
    | none => findDupGo opId rest

/-- Embedding of `findDuplicateOperationId`: scan the existing document's
whole path/method grid for the id, returning the first hit's location. -/
def findDuplicateOperationId {γ σ : Type} (existing : MDocOld γ σ) (opId : String) :
    Option (String × String) :=
  findDupGo opId existing.paths

/-- Inner loop of the conflict check over one new path item: the JS
`if (operation.operationId)` guard skips absent and empty ids. -/
def findConflictInItem {γ σ : Type} (existing : MDocOld γ σ) (p : String) :
    JsObj (MOp γ) → Option (String × String × String × String × String)
  | [] => none
  | (m, op) :: rest =>
    match op.operationId with
    | some id =>
      if id ≠ "" then
        match findDuplicateOperationId existing id with
        | some (ep, em) => some (id, ep, em, p, m)
        | none => findConflictInItem existing p rest
      else findConflictInItem existing p rest
    | none => findConflictInItem existing p rest

/-- The conflict-detection loop of `mergeWithExisting` over the new
document's paths: the first conflict as
(operationId, existingPath, existingMethod, newPath, newMethod). -/
def findConflict {γ σ : Type} (existing : MDocOld γ σ) :
    JsObj (JsObj (MOp γ)) → Option (String × String × String × String × String)
  | [] => none
  | (p, item) :: rest =>
    match findConflictInItem existing p item with
    | some r => some r
    | none => findConflict existing rest

/-- Embedding of `mergeWithExisting` after the existing document has been
read from the append path and YAML-parsed (that file I/O belongs to the
excluded collaborator; its failures are wrapped as `MERGE_ERROR` before this
logic runs).  A detected conflict throws `DUPLICATE_OPERATION_ID` before any
mutation, so the failed call leaves the new document untouched; otherwise
`paths` and `components.schemas` become the JS spreads
`{...existing, ...new}`. -/
def mergeWithExisting {γ σ : Type} (openapi : MDocNew γ σ) (existing : MDocOld γ σ) :
    Except SwagglerException (MDocNew γ σ) :=
  match findConflict existing openapi.paths with
  | some (id, ep, em, np, nm) =>
    .error
      { message := "Operation ID conflict detected"
        code := "DUPLICATE_OPERATION_ID"
        details := [("operationId", id), ("existingPath", ep), ("existingMethod", em),
                    ("newPath", np), ("newMethod", nm)] }
  | none =>
    .ok
      { paths := jsUnion (objLit existing.paths) openapi.paths
        componentsSchemas :=
          jsUnion
            (objLit (match existing.componentsSchemas with
              | some cs => cs
              | none => []))
            openapi.componentsSchemas }

/-! ## Derived accessors used by the statements -/

/-- JS `a || b` on option-valued lookups. -/
def jsOr {α : Type} (a b : Option α) : Option α :=
  match a with
  | some v => some v
  | none => b

/-- Look a property up in a schema node's `properties` object. -/
def Schema.propLookup (s : Schema) (k : String) : Option Schema :=
  match s.properties with
  | some ps => jsGet ps k
  | none => none

/-- Every operation id carried anywhere in a paths grid, in iteration
order. -/
def docOpIds {γ : Type} (paths : JsObj (JsObj (MOp γ))) : List String :=
  paths.flatMap (fun pi => pi.2.filterMap (fun mo => mo.2.operationId))

/-- Concrete example inputs used by witnesses. -/
def exCurl : ParsedCurl :=
  { method := "POST", url := "", headers := [], queryParams := [("q", "1")],
    data := some (jobj [("a", jstr "1")]), contentType := none }

def exResp : JVal := jnum 1

def exOpts : OpenAPIOptions := { operationName := some "op" }

def exDoc : GenDoc :=
  (generate exCurl exResp exOpts).getD ⟨"", "", ⟨"", "", [], [], none, ""⟩, []⟩

/-- The captures of the four body-flag regexes of `parse`, as functions of the
command (the same scans `parse` performs internally). -/
def dataRawFlags (c : String) : List String :=
  scanAll tryDataRawAt (c.toList.length + 1) c.toList

def dataFlags (c : String) : List String :=
  scanAll tryDataAt (c.toList.length + 1) c.toList

def urlEncFlags (c : String) : List String :=
  scanAll tryUrlEncAt (c.toList.length + 1) c.toList

def formFlags (c : String) : List String :=
  scanAll tryFormAt (c.toList.length + 1) c.toList

/-- The content-type value `parse` collects from its header scan (the last
`content-type` header, name compared case-insensitively). -/
def parseCT0 (c : String) : Option String :=
  ((scanAll tryHdrAt (c.toList.length + 1) c.toList).foldl
    (fun acc cap =>
      let kv := headerSplit cap
      (objSet acc.1 kv.1 kv.2,
       if jsToLower kv.1 = "content-type" then some kv.2 else acc.2))
    (([], none) : JsObj String × Option String)).2

/-! # Theorems -/

/-! ## Ground facts about the JS object model -/

theorem jsGet_eq_none_iff {α : Type} (o : JsObj α) (k : String) :
    jsGet o k = none ↔ k ∉ jsKeys o := by
  induction o with
  | nil => simp [jsGet, jsKeys]
  | cons hd tl ih =>
    obtain ⟨k', v'⟩ := hd
    rw [jsKeys_cons, List.mem_cons, jsGet]
    by_cases h : k' = k
    · subst h
      simp
    · rw [if_neg h, ih]
      constructor
      · intro hk
        rintro (hc | hc)
        · exact h hc.symm
        · exact hk hc
      · intro hk hc
        exact hk (Or.inr hc)

theorem jsGet_mem_of_some {α : Type} (o : JsObj α) (k : String) (v : α)
    (h : jsGet o k = some v) : (k, v) ∈ o := by
  induction o with
  | nil => simp [jsGet] at h
  | cons hd tl ih =>
    obtain ⟨k', v'⟩ := hd
    rw [jsGet] at h
    by_cases hk : k' = k
    · rw [if_pos hk] at h
      obtain rfl := hk
      obtain rfl : v' = v := by injection h
      exact List.mem_cons_self _ _
    · rw [if_neg hk] at h
      exact List.mem_cons_of_mem _ (ih h)

theorem foldl_objSet_fresh {α : Type} (entries : List (String × α)) :
    ∀ acc : JsObj α, (jsKeys entries).Nodup →
    (∀ k ∈ jsKeys entries, k ∉ jsKeys acc) →
    entries.foldl (fun o kv => objSet o kv.1 kv.2) acc = acc ++ entries := by
  induction entries with
  | nil => intro acc _ _; simp
  | cons hd tl ih =>
    intro acc hnd hdis
    obtain ⟨k, v⟩ := hd
    rw [jsKeys_cons] at hnd hdis
    rw [List.foldl_cons]
    have hfresh : k ∉ jsKeys acc := hdis k (List.mem_cons_self _ _)
    rw [objSet_fresh acc k v hfresh]
    have hnd' : (jsKeys tl).Nodup := hnd.of_cons
    have hdis' : ∀ m ∈ jsKeys tl, m ∉ jsKeys (acc ++ [(k, v)]) := by
      intro m hm
      have hmk : m ≠ k := by
        intro hh
        subst hh
        exact (List.nodup_cons.mp hnd).1 hm
      have : jsKeys (acc ++ [(k, v)]) = jsKeys acc ++ [k] := by
        simp [jsKeys]
      rw [this, List.mem_append]
      rintro (hc | hc)
      · exact hdis m (List.mem_cons_of_mem _ hm) hc
      · simp at hc
        exact hmk hc
    rw [ih (acc ++ [(k, v)]) hnd' hdis']
    simp

theorem objLit_eq_self {α : Type} (entries : List (String × α))
    (h : (jsKeys entries).Nodup) : objLit entries = entries := by
  have := foldl_objSet_fresh entries [] h (by intro k _; simp [jsKeys])
  simpa [objLit, jsUnion] using this

theorem jsGet_jsUnion {α : Type} (b : List (String × α)) :
    ∀ a : JsObj α, (jsKeys b).Nodup →
    ∀ k, jsGet (jsUnion a b) k = jsOr (jsGet b k) (jsGet a k) := by
  induction b with
  | nil => intro a _ k; simp [jsUnion, jsGet, jsOr]
  | cons hd tl ih =>
    intro a hnd k
    obtain ⟨k', v'⟩ := hd
    rw [jsKeys_cons, List.nodup_cons] at hnd
    have step : jsUnion a ((k', v') :: tl) = jsUnion (objSet a k' v') tl := by
      simp [jsUnion]
    rw [step, ih (objSet a k' v') hnd.2 k]
    by_cases hk : k' = k
    · subst hk
      have htl : jsGet tl k' = none := (jsGet_eq_none_iff tl k').mpr hnd.1
      rw [htl, jsGet, if_pos rfl, jsGet_objSet_self]
      simp [jsOr]
    · rw [jsGet_objSet_other a k' v' k hk, jsGet, if_neg hk]

/-! ## Facts about the merge conflict scan -/

theorem findInPathItem_some {γ : Type} (methods : JsObj (MOp γ)) (opId : String)
    (m : String) (h : findInPathItem methods opId = some m) :
    ∃ op : MOp γ, (m, op) ∈ methods ∧ op.operationId = some opId := by
  induction methods with
  | nil => simp [findInPathItem] at h
  | cons hd tl ih =>
    obtain ⟨m', op'⟩ := hd
    rw [findInPathItem] at h
    by_cases hid : op'.operationId = some opId
    · rw [if_pos hid] at h
      obtain rfl : m' = m := by injection h
      exact ⟨op', List.mem_cons_self _ _, hid⟩
    · rw [if_neg hid] at h
      obtain ⟨op, hmem, hop⟩ := ih h
      exact ⟨op, List.mem_cons_of_mem _ hmem, hop⟩

theorem findInPathItem_ne_none {γ : Type} (methods : JsObj (MOp γ)) (opId : String)
    (m : String) (op : MOp γ) (hmem : (m, op) ∈ methods)
    (hop : op.operationId = some opId) : findInPathItem methods opId ≠ none := by
  induction methods with
  | nil => simp at hmem
  | cons hd tl ih =>
    obtain ⟨m', op'⟩ := hd
    rw [findInPathItem]
    by_cases hid : op'.operationId = some opId
    · simp [hid]
    · rw [if_neg hid]
      rcases List.mem_cons.mp hmem with heq | hmem'
      · injection heq with h1 h2
        subst h1
        subst h2
        exact absurd hop hid
      · exact ih hmem'

theorem findDupGo_some {γ : Type} (opId : String) (paths : JsObj (JsObj (MOp γ)))
    (p m : String) (h : findDupGo opId paths = some (p, m)) :
    ∃ (item : JsObj (MOp γ)) (op : MOp γ),
      (p, item) ∈ paths ∧ (m, op) ∈ item ∧ op.operationId = some opId := by
  induction paths with
  | nil => simp [findDupGo] at h
  | cons hd tl ih =>
    obtain ⟨p', item'⟩ := hd
    rw [findDupGo] at h
    cases hfi : findInPathItem item' opId with
    | some m' =>
      rw [hfi] at h
      have h12 : p' = p ∧ m' = m := by
        have := h
        simp only [Option.some.injEq, Prod.mk.injEq] at this
        exact this
      obtain ⟨op, hmem, hop⟩ := findInPathItem_some item' opId m (h12.2 ▸ hfi)
      refine ⟨item', op, ?_, hmem, hop⟩
      rw [← h12.1]
      exact List.mem_cons_self _ _
    | none =>
      rw [hfi] at h
      obtain ⟨item, op, hp, hm, hop⟩ := ih h
      exact ⟨item, op, List.mem_cons_of_mem _ hp, hm, hop⟩

theorem findDupGo_ne_none {γ : Type} (opId : String) (paths : JsObj (JsObj (MOp γ)))
    (p m : String) (item : JsObj (MOp γ)) (op : MOp γ)
    (hp : (p, item) ∈ paths) (hm : (m, op) ∈ item)
    (hop : op.operationId = some opId) : findDupGo opId paths ≠ none := by
  induction paths with
  | nil => simp at hp
  | cons hd tl ih =>
    obtain ⟨p', item'⟩ := hd
    rw [findDupGo]
    rcases List.mem_cons.mp hp with heq | hp'
    · injection heq with h1 h2
      subst h1
      subst h2
      cases hfi : findInPathItem item opId with
      | some m' => simp
      | none => exact absurd hfi (findInPathItem_ne_none item opId m op hm hop)
    · cases hfi : findInPathItem item' opId with
      | some m' => simp
      | none => exact ih hp'

theorem mem_docOpIds {γ : Type} (paths : JsObj (JsObj (MOp γ)))
    (p m id : String) (item : JsObj (MOp γ)) (op : MOp γ)
    (hp : (p, item) ∈ paths) (hm : (m, op) ∈ item)
    (hid : op.operationId = some id) : id ∈ docOpIds paths := by
  rw [docOpIds]
  exact List.mem_flatMap.mpr ⟨(p, item), hp, List.mem_filterMap.mpr ⟨(m, op), hm, hid⟩⟩

theorem findConflictInItem_some {γ σ : Type} (existing : MDocOld γ σ) (p : String)
    (item : JsObj (MOp γ)) (id ep em np nm : String)
    (h : findConflictInItem existing p item = some (id, ep, em, np, nm)) :
    np = p ∧ id ≠ "" ∧ findDuplicateOperationId existing id = some (ep, em) ∧
      ∃ op : MOp γ, (nm, op) ∈ item ∧ op.operationId = some id := by
  induction item with
  | nil => simp [findConflictInItem] at h
  | cons hd tl ih =>
    obtain ⟨m', op'⟩ := hd
    rw [findConflictInItem] at h
    cases hoid : op'.operationId with
    | none =>
      rw [hoid] at h
      dsimp only at h
      obtain ⟨h1, h2, h3, op, hmem, hop⟩ := ih h
      exact ⟨h1, h2, h3, op, List.mem_cons_of_mem _ hmem, hop⟩
    | some cand =>
      rw [hoid] at h
      dsimp only at h
      by_cases hcand : cand ≠ ""
      · rw [if_pos hcand] at h
        cases hdup : findDuplicateOperationId existing cand with
        | some pr =>
          obtain ⟨dp, dm⟩ := pr
          rw [hdup] at h
          have h5 : cand = id ∧ dp = ep ∧ dm = em ∧ p = np ∧ m' = nm := by
            have := h
            simp only [Option.some.injEq, Prod.mk.injEq] at this
            tauto
          obtain ⟨rfl, rfl, rfl, rfl, rfl⟩ := h5
          exact ⟨rfl, hcand, hdup, op', List.mem_cons_self _ _, hoid⟩
        | none =>
          rw [hdup] at h
          obtain ⟨h1, h2, h3, op, hmem, hop⟩ := ih h
          exact ⟨h1, h2, h3, op, List.mem_cons_of_mem _ hmem, hop⟩
      · rw [if_neg hcand] at h
        obtain ⟨h1, h2, h3, op, hmem, hop⟩ := ih h
        exact ⟨h1, h2, h3, op, List.mem_cons_of_mem _ hmem, hop⟩

theorem findConflictInItem_ne_none {γ σ : Type} (existing : MDocOld γ σ) (p : String)
    (item : JsObj (MOp γ)) (m id : String) (op : MOp γ)
    (hm : (m, op) ∈ item) (hid : op.operationId = some id) (hne : id ≠ "")
    (hdup : findDuplicateOperationId existing id ≠ none) :
    findConflictInItem existing p item ≠ none := by
  induction item with
  | nil => simp at hm
  | cons hd tl ih =>
    obtain ⟨m', op'⟩ := hd
    rw [findConflictInItem]
    rcases List.mem_cons.mp hm with heq | hm'
    · injection heq with h1 h2
      subst h1
      subst h2
      rw [hid]
      dsimp only
      rw [if_pos hne]
      cases hd2 : findDuplicateOperationId existing id with
      | some pr => simp
      | none => exact absurd hd2 hdup
    · cases hoid : op'.operationId with
      | none =>
        dsimp only
        exact ih hm'
      | some cand =>
        dsimp only
        by_cases hcand : cand ≠ ""
        · rw [if_pos hcand]
          cases hd2 : findDuplicateOperationId existing cand with
          | some pr => simp
          | none => exact ih hm'
        · rw [if_neg hcand]
          exact ih hm'

theorem findConflict_some {γ σ : Type} (existing : MDocOld γ σ)
    (paths : JsObj (JsObj (MOp γ))) (id ep em np nm : String)
    (h : findConflict existing paths = some (id, ep, em, np, nm)) :
    id ≠ "" ∧ findDuplicateOperationId existing id = some (ep, em) ∧
      ∃ (item : JsObj (MOp γ)) (op : MOp γ),
        (np, item) ∈ paths ∧ (nm, op) ∈ item ∧ op.operationId = some id := by
  induction paths with
  | nil => simp [findConflict] at h
  | cons hd tl ih =>
    obtain ⟨p', item'⟩ := hd
    rw [findConflict] at h
    cases hfc : findConflictInItem existing p' item' with
    | some r =>
      rw [hfc] at h
      obtain rfl : r = (id, ep, em, np, nm) := by injection h
      obtain ⟨hnp, hne, hdup, op, hmem, hop⟩ := findConflictInItem_some existing p' item' id ep em np nm hfc
      subst hnp
      exact ⟨hne, hdup, item', op, List.mem_cons_self _ _, hmem, hop⟩
    | none =>
      rw [hfc] at h
      obtain ⟨hne, hdup, item, op, hp, hm, hop⟩ := ih h
      exact ⟨hne, hdup, item, op, List.mem_cons_of_mem _ hp, hm, hop⟩

theorem findConflict_ne_none {γ σ : Type} (existing : MDocOld γ σ)
    (paths : JsObj (JsObj (MOp γ))) (np nm id : String) (item : JsObj (MOp γ))
    (op : MOp γ) (hp : (np, item) ∈ paths) (hm : (nm, op) ∈ item)
    (hid : op.operationId = some id) (hne : id ≠ "")
    (hdup : findDuplicateOperationId existing id ≠ none) :
    findConflict existing paths ≠ none := by
  induction paths with
  | nil => simp at hp
  | cons hd tl ih =>
    obtain ⟨p', item'⟩ := hd
    rw [findConflict]
    rcases List.mem_cons.mp hp with heq | hp'
    · injection heq with h1 h2
      subst h1
      subst h2
      cases hfc : findConflictInItem existing np item with
      | some r => simp
      | none =>
        exact absurd hfc (findConflictInItem_ne_none existing np item nm id op hm hid hne hdup)
    · cases hfc : findConflictInItem existing p' item' with
      | some r => simp
      | none => exact ih hp'

/-! ## Claim C1 -/

/-- Claim C1, counterexample.  Both documents carry an operation whose
`operationId` is the (equal) empty string, yet `mergeWithExisting` raises no
error and performs the merge: the JS truthiness guard
`if (operation.operationId)` skips empty ids, so the claimed conflict
detection does not fire for them. -/
theorem merge_empty_operation_id_not_detected :
    mergeWithExisting
      (⟨[("/a", [("get", ⟨some "", ()⟩)])], []⟩ : MDocNew Unit Unit)
      (⟨[("/b", [("post", ⟨some "", ()⟩)])], none⟩ : MDocOld Unit Unit) =
    .ok ⟨[("/b", [("post", ⟨some "", ()⟩)]), ("/a", [("get", ⟨some "", ()⟩)])], []⟩ := by
  rfl

/-- Claim C1 (amended: the clashing operation id must be non-empty, since the
source's truthiness guard skips empty ids).  If any operation of the new
document carries a non-empty `operationId` that also occurs anywhere in the
existing document's paths grid, `mergeWithExisting` returns a
`DUPLICATE_OPERATION_ID` error whose details name a genuine clash — the id,
an existing path and method carrying it, and a new path and method carrying
it — and no merged document is produced (the error return leaves the new
document's `paths` and `components.schemas` untouched). -/
theorem merge_raises_on_duplicate_operation_id {γ σ : Type}
    (openapi : MDocNew γ σ) (existing : MDocOld γ σ)
    (np nm id : String) (item : JsObj (MOp γ)) (op : MOp γ)
    (hnp : (np, item) ∈ openapi.paths) (hnm : (nm, op) ∈ item)
    (hid : op.operationId = some id) (hne : id ≠ "")
    (ep em : String) (eitem : JsObj (MOp γ)) (eop : MOp γ)
    (hep : (ep, eitem) ∈ existing.paths) (hem : (em, eop) ∈ eitem)
    (heid : eop.operationId = some id) :
    ∃ e : SwagglerException,
      mergeWithExisting openapi existing = .error e ∧
      e.code = "DUPLICATE_OPERATION_ID" ∧
      e.message = "Operation ID conflict detected" ∧
      ∃ cid cep cem cnp cnm : String,
        e.details = [("operationId", cid), ("existingPath", cep),
                     ("existingMethod", cem), ("newPath", cnp), ("newMethod", cnm)] ∧
        (∃ (item' : JsObj (MOp γ)) (op' : MOp γ),
          (cnp, item') ∈ openapi.paths ∧ (cnm, op') ∈ item' ∧
            op'.operationId = some cid) ∧
        (∃ (item' : JsObj (MOp γ)) (op' : MOp γ),
          (cep, item') ∈ existing.paths ∧ (cem, op') ∈ item' ∧
            op'.operationId = some cid) := by
  have hdup : findDuplicateOperationId existing id ≠ none := by
    rw [findDuplicateOperationId]
    exact findDupGo_ne_none id existing.paths ep em eitem eop hep hem heid
  cases hconf : findConflict existing openapi.paths with
  | none =>
    exact absurd hconf
      (findConflict_ne_none existing openapi.paths np nm id item op hnp hnm hid hne hdup)
  | some r =>
    obtain ⟨cid, cep, cem, cnp, cnm⟩ := r
    obtain ⟨hcne, hcdup, citem, cop, hcp, hcm, hcop⟩ :=
      findConflict_some existing openapi.paths cid cep cem cnp cnm hconf
    obtain ⟨eitem', eop', hep', hem', heop'⟩ :=
      findDupGo_some cid existing.paths cep cem (by rw [findDuplicateOperationId] at hcdup; exact hcdup)
    refine ⟨{ message := "Operation ID conflict detected",
              code := "DUPLICATE_OPERATION_ID",
              details := [("operationId", cid), ("existingPath", cep),
                          ("existingMethod", cem), ("newPath", cnp), ("newMethod", cnm)] },
      ?_, rfl, rfl, cid, cep, cem, cnp, cnm, rfl,
      ⟨citem, cop, hcp, hcm, hcop⟩, ⟨eitem', eop', hep', hem', heop'⟩⟩
    rw [mergeWithExisting, hconf]

/-- Claim C1 witness: the amended theorem applied at a concrete clash. -/
theorem merge_raises_on_duplicate_operation_id_witness :
    ∃ e : SwagglerException,
      mergeWithExisting
        (⟨[("/a", [("get", ⟨some "x", ()⟩)])], []⟩ : MDocNew Unit Unit)
        (⟨[("/b", [("post", ⟨some "x", ()⟩)])], none⟩ : MDocOld Unit Unit) = .error e ∧
      e.code = "DUPLICATE_OPERATION_ID" ∧
      e.message = "Operation ID conflict detected" ∧
      ∃ cid cep cem cnp cnm : String,
        e.details = [("operationId", cid), ("existingPath", cep),
                     ("existingMethod", cem), ("newPath", cnp), ("newMethod", cnm)] ∧
        (∃ (item' : JsObj (MOp Unit)) (op' : MOp Unit),
          (cnp, item') ∈ [("/a", [("get", (⟨some "x", ()⟩ : MOp Unit))])] ∧
            (cnm, op') ∈ item' ∧ op'.operationId = some cid) ∧
        (∃ (item' : JsObj (MOp Unit)) (op' : MOp Unit),
          (cep, item') ∈ [("/b", [("post", (⟨some "x", ()⟩ : MOp Unit))])] ∧
            (cem, op') ∈ item' ∧ op'.operationId = some cid) :=
  merge_raises_on_duplicate_operation_id
    (⟨[("/a", [("get", ⟨some "x", ()⟩)])], []⟩ : MDocNew Unit Unit)
    (⟨[("/b", [("post", ⟨some "x", ()⟩)])], none⟩ : MDocOld Unit Unit)
    "/a" "get" "x" [("get", ⟨some "x", ()⟩)] ⟨some "x", ()⟩
    (by decide) (by decide) rfl (by decide)
    "/b" "post" [("post", ⟨some "x", ()⟩)] ⟨some "x", ()⟩
    (by decide) (by decide) rfl

/-! ## Claim C7 -/

/-- Claim C7: when no operation id of the new document occurs in the existing
document, `mergeWithExisting` succeeds and returns the shallow union: every
path key resolves to the new document's entry when both define it, otherwise
to whichever document defines it; `components.schemas` behaves the same with
a missing existing `components.schemas` treated as empty — in that case the
resulting schemas are exactly the new document's.  (The key-uniqueness
hypotheses state that the inputs are real JS objects.) -/
theorem merge_shallow_union {γ σ : Type}
    (openapi : MDocNew γ σ) (existing : MDocOld γ σ)
    (hdisj : ∀ id ∈ docOpIds openapi.paths, id ∉ docOpIds existing.paths)
    (hnp : (jsKeys openapi.paths).Nodup) (hop : (jsKeys existing.paths).Nodup)
    (hncs : (jsKeys openapi.componentsSchemas).Nodup)
    (hocs : ∀ cs, existing.componentsSchemas = some cs → (jsKeys cs).Nodup) :
    ∃ d : MDocNew γ σ,
      mergeWithExisting openapi existing = .ok d ∧
      (∀ k, jsGet d.paths k = jsOr (jsGet openapi.paths k) (jsGet existing.paths k)) ∧
      (∀ k, jsGet d.componentsSchemas k =
        jsOr (jsGet openapi.componentsSchemas k)
          (match existing.componentsSchemas with
           | some cs => jsGet cs k
           | none => none)) ∧
      (existing.componentsSchemas = none →
        d.componentsSchemas = openapi.componentsSchemas) := by
  have hconf : findConflict existing openapi.paths = none := by
    cases hconf : findConflict existing openapi.paths with
    | none => rfl
    | some r =>
      obtain ⟨cid, cep, cem, cnp, cnm⟩ := r
      obtain ⟨hcne, hcdup, citem, cop, hcp, hcm, hcop⟩ :=
        findConflict_some existing openapi.paths cid cep cem cnp cnm hconf
      obtain ⟨eitem, eop, hep, hem, heop⟩ :=
        findDupGo_some cid existing.paths cep cem
          (by rw [findDuplicateOperationId] at hcdup; exact hcdup)
      exact absurd (mem_docOpIds existing.paths cep cem cid eitem eop hep hem heop)
        (hdisj cid (mem_docOpIds openapi.paths cnp cnm cid citem cop hcp hcm hcop))
  refine ⟨_, by rw [mergeWithExisting, hconf], ?_, ?_, ?_⟩
  · intro k
    rw [jsGet_jsUnion openapi.paths (objLit existing.paths) hnp k,
        objLit_eq_self existing.paths hop]
  · intro k
    cases hcs : existing.componentsSchemas with
    | some cs =>
      rw [jsGet_jsUnion openapi.componentsSchemas _ hncs k, objLit_eq_self cs (hocs cs hcs)]
    | none =>
      rw [jsGet_jsUnion openapi.componentsSchemas _ hncs k]
      have hnil : jsGet (objLit ([] : JsObj σ)) k = none := rfl
      rw [hnil]
  · intro hnone
    rw [hnone]
    show jsUnion (objLit []) openapi.componentsSchemas = openapi.componentsSchemas
    have : (objLit ([] : JsObj σ)) = [] := rfl
    rw [this]
    show objLit openapi.componentsSchemas = openapi.componentsSchemas
    exact objLit_eq_self _ hncs

/-- Claim C7 witness: the union theorem applied to concrete documents with
disjoint operation ids and a missing existing `components.schemas`. -/
theorem merge_shallow_union_witness :
    ∃ d : MDocNew Unit Unit,
      mergeWithExisting
        (⟨[("/a", [("get", ⟨some "a1", ()⟩)])], [("S", ())]⟩ : MDocNew Unit Unit)
        (⟨[("/b", [("post", ⟨some "b1", ()⟩)])], none⟩ : MDocOld Unit Unit) = .ok d ∧
      (∀ k, jsGet d.paths k =
        jsOr (jsGet [("/a", [("get", (⟨some "a1", ()⟩ : MOp Unit))])] k)
             (jsGet [("/b", [("post", (⟨some "b1", ()⟩ : MOp Unit))])] k)) ∧
      (∀ k, jsGet d.componentsSchemas k =
        jsOr (jsGet [("S", ())] k)
          (match (none : Option (JsObj Unit)) with
           | some cs => jsGet cs k
           | none => none)) ∧
      ((none : Option (JsObj Unit)) = none → d.componentsSchemas = [("S", ())]) :=
  merge_shallow_union
    (⟨[("/a", [("get", ⟨some "a1", ()⟩)])], [("S", ())]⟩ : MDocNew Unit Unit)
    (⟨[("/b", [("post", ⟨some "b1", ()⟩)])], none⟩ : MDocOld Unit Unit)
    (by decide) (by decide) (by decide) (by decide)
    (by intro cs h; cases h)

/-! ## Facts about the property fold of `generateSchema` -/

theorem genPropsStep_fst (rec : JVal → String → JsObj Schema → Schema × JsObj Schema)
    (pfx : String) (acc : JsObj Schema × JsObj Schema) (kv : String × JVal) :
    ∃ s : Schema, (genPropsStep rec pfx acc kv).1 = objSet acc.1 kv.1 s := by
  obtain ⟨k, v⟩ := kv
  cases v with
  | jnull => exact ⟨_, rfl⟩
  | jbool b => exact ⟨_, rfl⟩
  | jnum q => exact ⟨_, rfl⟩
  | jstr s => exact ⟨_, rfl⟩
  | jarr xs => cases xs with
    | nil => exact ⟨_, rfl⟩
    | cons x xs => exact ⟨_, rfl⟩
  | jobj fs => exact ⟨_, rfl⟩

theorem genPropsFold_frozen (rec : JVal → String → JsObj Schema → Schema × JsObj Schema)
    (pfx : String) (fields : List (String × JVal)) :
    ∀ (acc : JsObj Schema × JsObj Schema) (key : String),
    key ∉ fields.map Prod.fst →
    jsGet (fields.foldl (genPropsStep rec pfx) acc).1 key = jsGet acc.1 key := by
  induction fields with
  | nil => intro acc key _; rfl
  | cons hd tl ih =>
    intro acc key hkey
    rw [List.map_cons, List.mem_cons] at hkey
    push_neg at hkey
    rw [List.foldl_cons]
    rw [ih (genPropsStep rec pfx acc hd) key hkey.2]
    obtain ⟨s, hs⟩ := genPropsStep_fst rec pfx acc hd
    rw [hs, jsGet_objSet_other _ _ _ _ (fun hh => hkey.1 hh.symm)]

theorem genPropsFold_null (rec : JVal → String → JsObj Schema → Schema × JsObj Schema)
    (pfx : String) (fields : List (String × JVal)) :
    ∀ (acc : JsObj Schema × JsObj Schema) (key : String),
    (key, jnull) ∈ fields → (fields.map Prod.fst).Nodup →
    jsGet (fields.foldl (genPropsStep rec pfx) acc).1 key = some strNullable := by
  induction fields with
  | nil => intro acc key hmem _; simp at hmem
  | cons hd tl ih =>
    intro acc key hmem hnd
    obtain ⟨k, v⟩ := hd
    rw [List.map_cons, List.nodup_cons] at hnd
    rw [List.foldl_cons]
    rcases List.mem_cons.mp hmem with heq | hmem'
    · injection heq with h1 h2
      subst h1
      subst h2
      have hnotin : key ∉ tl.map Prod.fst := hnd.1
      rw [genPropsFold_frozen rec pfx tl _ key hnotin]
      show jsGet (objSet acc.1 key strNullable) key = some strNullable
      exact jsGet_objSet_self _ _ _
    · exact ih (genPropsStep rec pfx acc (k, v)) key hmem' hnd.2

/-! ## Claim C3 -/

/-- Claim C3, counterexample.  A top-level `null` input falls through to the
scalar branch of `generateSchema` and yields
`{type: "object", example: null, properties: {}}` (because `getOpenAPIType`
maps `null` to `"object"`), not the claimed `{type: "string",
nullable: true}`: the nullable-string schema is produced only for null
object-property values. -/
theorem generateSchema_top_level_null_counterexample :
    (generateSchema jnull "P" []).1.type = some SType.object ∧
    (generateSchema jnull "P" []).1.exampleVal = some jnull ∧
    (generateSchema jnull "P" []).1.nullable = none ∧
    (generateSchema jnull "P" []).1 ≠ strNullable := by
  refine ⟨rfl, rfl, rfl, fun h => ?_⟩
  have := congrArg Schema.type h
  rw [show (generateSchema jnull "P" []).1.type = some SType.object from rfl] at this
  rw [show strNullable.type = some SType.string from rfl] at this
  exact absurd this (by decide)

/-- Claim C3 (amended: restricted to object property values, which is where
the source's null branch lives).  For every object whose JS-unique keys
include `key` with value `null`, and any non-exhausted depth (`fuel + 1`
encodes `depth ≤ 100`), the generated object schema maps `key` to
`{type: "string", nullable: true}`.  A top-level `null` (and hence a null
array element, which re-enters at the top level) instead produces
`{type: "object", example: null, properties: {}}`. -/
theorem generateSchema_null_property (fuel : Nat) (fields : List (String × JVal))
    (pfx : String) (reg : JsObj Schema) (key : String)
    (hnd : (fields.map Prod.fst).Nodup) (hmem : (key, jnull) ∈ fields) :
    ((generateSchemaGo (fuel + 1) (jobj fields) pfx reg).1).propLookup key =
      some strNullable := by
  show jsGet (fields.foldl
    (genPropsStep (fun d p r => generateSchemaGo fuel d p r) pfx) ([], reg)).1 key =
    some strNullable
  exact genPropsFold_null _ pfx fields ([], reg) key hmem hnd

/-- Claim C3 witness: the amended theorem at a concrete object. -/
theorem generateSchema_null_property_witness :
    ((generateSchemaGo 101 (jobj [("k", jnull)]) "P" []).1).propLookup "k" =
      some strNullable :=
  generateSchema_null_property 100 [("k", jnull)] "P" [] "k" (by decide)
    (List.mem_singleton.mpr rfl)

/-! ## Registry-independence and the registration trace of `generateSchema` -/

theorem genPropsStep_fst_ext
    (rec rec' : JVal → String → JsObj Schema → Schema × JsObj Schema) (pfx : String)
    (acc acc' : JsObj Schema × JsObj Schema) (kv : String × JVal)
    (h : acc.1 = acc'.1) :
    (genPropsStep rec pfx acc kv).1 = (genPropsStep rec' pfx acc' kv).1 := by
  obtain ⟨k, v⟩ := kv
  cases v with
  | jnull => simp only [genPropsStep, h]
  | jbool b => simp only [genPropsStep, h]
  | jnum q => simp only [genPropsStep, h]
  | jstr s => simp only [genPropsStep, h]
  | jarr xs => cases xs with
    | nil => simp only [genPropsStep, h]
    | cons x xs => simp only [genPropsStep, h]
  | jobj fs => simp only [genPropsStep, h]

theorem genPropsFold_fst_ext
    (rec rec' : JVal → String → JsObj Schema → Schema × JsObj Schema) (pfx : String)
    (fields : List (String × JVal)) :
    ∀ (acc acc' : JsObj Schema × JsObj Schema), acc.1 = acc'.1 →
    (fields.foldl (genPropsStep rec pfx) acc).1 =
      (fields.foldl (genPropsStep rec' pfx) acc').1 := by
  induction fields with
  | nil => intro acc acc' h; exact h
  | cons hd tl ih =>
    intro acc acc' h
    rw [List.foldl_cons, List.foldl_cons]
    exact ih _ _ (genPropsStep_fst_ext rec rec' pfx acc acc' hd h)

/-- The schema component of a `generateSchema` call does not depend on the
incoming registry (the source only ever writes to `schemas`). -/
theorem generateSchemaGo_fst_reg_free (fuel : Nat) (data : JVal) (pfx : String)
    (reg reg' : JsObj Schema) :
    (generateSchemaGo fuel data pfx reg).1 = (generateSchemaGo fuel data pfx reg').1 := by
  cases fuel with
  | zero => rfl
  | succ fuel =>
    cases data with
    | jnull => rfl
    | jbool b => rfl
    | jnum q => rfl
    | jstr s => rfl
    | jarr xs => cases xs with
      | nil => rfl
      | cons x xs => rfl
    | jobj fields =>
      show Schema.mk (some .object)
          (some (fields.foldl (genPropsStep _ pfx) ([], reg)).1) none none none none none =
        Schema.mk (some .object)
          (some (fields.foldl (genPropsStep _ pfx) ([], reg')).1) none none none none none
      rw [genPropsFold_fst_ext _ _ pfx fields ([], reg) ([], reg') rfl]

theorem foldl_append_flatMap {α β : Type} (f : α → List β) (l : List α) :
    ∀ acc : List β, l.foldl (fun a x => a ++ f x) acc = acc ++ l.flatMap f := by
  induction l with
  | nil => intro acc; simp
  | cons hd tl ih =>
    intro acc
    rw [List.foldl_cons, ih (acc ++ f hd), List.flatMap_cons, List.append_assoc]

/-- The registry a `generateSchema` call returns is the incoming registry
with the call's chronological registrations applied in order. -/
theorem generateSchemaGo_snd_trace (fuel : Nat) :
    ∀ (data : JVal) (pfx : String) (reg : JsObj Schema),
    (generateSchemaGo fuel data pfx reg).2 =
      (regTraceGo fuel data pfx).foldl (fun o kv => objSet o kv.1 kv.2) reg := by
  induction fuel with
  | zero => intro data pfx reg; rfl
  | succ fuel ih =>
    intro data pfx reg
    cases data with
    | jnull => rfl
    | jbool b => rfl
    | jnum q => rfl
    | jstr s => rfl
    | jarr xs =>
      cases xs with
      | nil => rfl
      | cons x tl =>
        show objSet (generateSchemaGo fuel x (pfx ++ "Item") reg).2 (pfx ++ "Item")
            (generateSchemaGo fuel x (pfx ++ "Item") reg).1 =
          (regTraceGo fuel x (pfx ++ "Item") ++
            [(pfx ++ "Item", (generateSchemaGo fuel x (pfx ++ "Item") []).1)]).foldl
            (fun o kv => objSet o kv.1 kv.2) reg
        rw [List.foldl_append, ih x (pfx ++ "Item") reg]
        rw [generateSchemaGo_fst_reg_free fuel x (pfx ++ "Item") [] reg]
        rfl
    | jobj fields =>
      show (fields.foldl (genPropsStep (fun d p r => generateSchemaGo fuel d p r) pfx)
          ([], reg)).2 = _
      rw [show regTraceGo (fuel + 1) (jobj fields) pfx =
        fields.foldl (fun acc kv => acc ++ regTraceFieldG (fun d p => regTraceGo fuel d p)
          (fun d p r => generateSchemaGo fuel d p r) pfx kv) [] from rfl]
      rw [foldl_append_flatMap]
      rw [List.nil_append]
      have inner : ∀ (fs : List (String × JVal)) (props : JsObj Schema) (r : JsObj Schema),
          (fs.foldl (genPropsStep (fun d p r' => generateSchemaGo fuel d p r') pfx)
            (props, r)).2 =
          (fs.flatMap (regTraceFieldG (fun d p => regTraceGo fuel d p)
            (fun d p r' => generateSchemaGo fuel d p r') pfx)).foldl
            (fun o kv => objSet o kv.1 kv.2) r := by
        intro fs
        induction fs with
        | nil => intro props r; rfl
        | cons hd tl ihf =>
          intro props r
          rw [List.foldl_cons, List.flatMap_cons, List.foldl_append]
          obtain ⟨k, v⟩ := hd
          cases v with
          | jnull => exact ihf _ r
          | jbool b => exact ihf _ r
          | jnum q => exact ihf _ r
          | jstr s => exact ihf _ r
          | jarr xs =>
            cases xs with
            | nil => exact ihf _ r
            | cons x tl2 =>
              rw [show (genPropsStep (fun d p r' => generateSchemaGo fuel d p r') pfx
                  (props, r) (k, jarr (x :: tl2))) =
                (objSet props k
                  (.mk (some .array) none none
                    (some (refSchema (pfx ++ capFirst k ++ "Item"))) none none none),
                 objSet (generateSchemaGo fuel x (pfx ++ capFirst k ++ "Item") r).2
                   (pfx ++ capFirst k ++ "Item")
                   (generateSchemaGo fuel x (pfx ++ capFirst k ++ "Item") r).1) from rfl]
              rw [ihf _ _]
              rw [show (regTraceFieldG (fun d p => regTraceGo fuel d p)
                  (fun d p r' => generateSchemaGo fuel d p r') pfx (k, jarr (x :: tl2))) =
                regTraceGo fuel x (pfx ++ capFirst k ++ "Item") ++
                  [(pfx ++ capFirst k ++ "Item",
                    (generateSchemaGo fuel x (pfx ++ capFirst k ++ "Item") []).1)] from rfl]
              rw [List.foldl_append, ih x (pfx ++ capFirst k ++ "Item") r]
              rw [generateSchemaGo_fst_reg_free fuel x (pfx ++ capFirst k ++ "Item") [] r]
              rfl
          | jobj fs2 =>
            rw [show (genPropsStep (fun d p r' => generateSchemaGo fuel d p r') pfx
                (props, r) (k, jobj fs2)) =
              (objSet props k (refSchema (pfx ++ capFirst k)),
               objSet (generateSchemaGo fuel (jobj fs2) (pfx ++ capFirst k) r).2
                 (pfx ++ capFirst k)
                 (generateSchemaGo fuel (jobj fs2) (pfx ++ capFirst k) r).1) from rfl]
            rw [ihf _ _]
            rw [show (regTraceFieldG (fun d p => regTraceGo fuel d p)
                (fun d p r' => generateSchemaGo fuel d p r') pfx (k, jobj fs2)) =
              regTraceGo fuel (jobj fs2) (pfx ++ capFirst k) ++
                [(pfx ++ capFirst k,
                  (generateSchemaGo fuel (jobj fs2) (pfx ++ capFirst k) []).1)] from rfl]
            rw [List.foldl_append, ih (jobj fs2) (pfx ++ capFirst k) r]
            rw [generateSchemaGo_fst_reg_free fuel (jobj fs2) (pfx ++ capFirst k) [] r]
            rfl
      exact inner fields [] reg

/-! ## Claim C2 -/

/-- Claim C2, counterexample.  The keys `"a"` and `"A"` both capitalize to
`"A"`, so one `generateSchema` call over
`{a: {x: 1}, A: {y: 2}}` with prefix `"P"` mints the registry name `"PA"`
twice, for two different schemas (the first has property `x`, the second has
property `y` and no `x`); the final registry keeps only the later one. -/
theorem generateSchema_name_collision :
    mintedNames 101 (jobj [("a", jobj [("x", jnum 1)]), ("A", jobj [("y", jnum 2)])]) "P" =
      ["PA", "PA"] ∧
    (regTraceGo 101 (jobj [("a", jobj [("x", jnum 1)]), ("A", jobj [("y", jnum 2)])]) "P").map
      (fun kv => kv.2.propLookup "x") =
      [some (Schema.mk (some SType.integer) none none none (some (jnum 1)) none none),
       none] ∧
    jsKeys (generateSchema
      (jobj [("a", jobj [("x", jnum 1)]), ("A", jobj [("y", jnum 2)])]) "P" []).2 = ["PA"] ∧
    ((generateSchema
      (jobj [("a", jobj [("x", jnum 1)]), ("A", jobj [("y", jnum 2)])]) "P" []).2).map
      (fun kv => kv.2.propLookup "x") = [none] := by
  refine ⟨rfl, rfl, rfl, rfl⟩

/-- Claim C2 (amended: names are minted deterministically from the property
path, but distinct paths can mint the same string — e.g. keys differing only
in the case of their first letter — and then the later registration
overwrites the earlier one.  Uniqueness holds exactly when the minted names
are pairwise distinct).  Under that hypothesis, one `generate`-entry call
(`fuel 101` = depth 0) from the empty registry registers every minted name
exactly once: the final registry is the chronological registration trace
itself, and its keys are unique. -/
theorem generateSchema_unique_names_when_nodup (data : JVal) (pfx : String)
    (h : (mintedNames 101 data pfx).Nodup) :
    (generateSchema data pfx []).2 = regTraceGo 101 data pfx ∧
    (jsKeys (generateSchema data pfx []).2).Nodup := by
  have hdec := generateSchemaGo_snd_trace 101 data pfx []
  have hkeys : jsKeys (regTraceGo 101 data pfx) = mintedNames 101 data pfx := rfl
  have hfresh := foldl_objSet_fresh (regTraceGo 101 data pfx) []
    (by rw [hkeys]; exact h) (by intro k _; simp [jsKeys])
  constructor
  · rw [generateSchema, hdec, hfresh, List.nil_append]
  · rw [generateSchema, hdec, hfresh, List.nil_append, hkeys]
    exact h

/-- Claim C2 witness: a nested object whose minted names are distinct, where
the registry is exactly the one-entry trace. -/
theorem generateSchema_unique_names_witness :
    (generateSchema (jobj [("a", jobj [("x", jnum 1)])]) "P" []).2 =
      regTraceGo 101 (jobj [("a", jobj [("x", jnum 1)])]) "P" ∧
    (jsKeys (generateSchema (jobj [("a", jobj [("x", jnum 1)])]) "P" []).2).Nodup :=
  generateSchema_unique_names_when_nodup (jobj [("a", jobj [("x", jnum 1)])]) "P"
    (by decide)

/-! ## Reference integrity of the generator -/

theorem jsKeys_foldl_objSet {α : Type} (t : List (String × α)) :
    ∀ (reg : JsObj α) (k : String),
    k ∈ jsKeys (t.foldl (fun o kv => objSet o kv.1 kv.2) reg) ↔
      k ∈ jsKeys reg ∨ k ∈ t.map Prod.fst := by
  induction t with
  | nil => intro reg k; simp
  | cons hd tl ih =>
    intro reg k
    rw [List.foldl_cons, ih (objSet reg hd.1 hd.2) k, jsKeys_objSet, List.map_cons,
        List.mem_cons]
    tauto

theorem mem_values_foldl_objSet {α : Type} (t : List (String × α)) :
    ∀ (reg : JsObj α) (s : α),
    s ∈ (t.foldl (fun o kv => objSet o kv.1 kv.2) reg).map Prod.snd →
      s ∈ reg.map Prod.snd ∨ s ∈ t.map Prod.snd := by
  induction t with
  | nil => intro reg s h; exact Or.inl h
  | cons hd tl ih =>
    intro reg s h
    rw [List.foldl_cons] at h
    rcases ih (objSet reg hd.1 hd.2) s h with h' | h'
    · rcases mem_values_objSet reg hd.1 hd.2 s h' with h'' | h''
      · exact Or.inl h''
      · exact Or.inr (by rw [List.map_cons, List.mem_cons]; exact Or.inl h'')
    · exact Or.inr (by rw [List.map_cons, List.mem_cons]; exact Or.inr h')

theorem generateSchemaGo_keys_mono (fuel : Nat) (data : JVal) (pfx : String)
    (reg : JsObj Schema) (k : String) (h : k ∈ jsKeys reg) :
    k ∈ jsKeys (generateSchemaGo fuel data pfx reg).2 := by
  rw [generateSchemaGo_snd_trace]
  exact (jsKeys_foldl_objSet _ reg k).mpr (Or.inl h)

theorem mem_refs_refSchema (nm : String) (rfuel : Nat) (r : String)
    (h : r ∈ schemaRefsGo rfuel (refSchema nm)) : r = refPre ++ nm := by
  cases rfuel with
  | zero => simp [schemaRefsGo] at h
  | succ rfuel =>
    simp only [refSchema, schemaRefsGo, Option.toList] at h
    simp at h
    exact h

theorem schemaRefsGo_no_items_no_ref (rfuel : Nat) (t : Option SType)
    (req : Option (List String)) (e : Option JVal) (n : Option Bool) :
    schemaRefsGo rfuel (.mk t none req none e n none) = [] := by
  cases rfuel with
  | zero => rfl
  | succ rfuel => rfl

theorem schemaRefsGo_empty_props (rfuel : Nat) (t : Option SType)
    (req : Option (List String)) (e : Option JVal) (n : Option Bool) :
    schemaRefsGo rfuel (.mk t (some []) req none e n none) = [] := by
  cases rfuel with
  | zero => rfl
  | succ rfuel => rfl

theorem schemaRefsGo_inline_items (rfuel : Nat) (t t2 : Option SType)
    (req req2 : Option (List String)) (e e2 : Option JVal) (n n2 : Option Bool) :
    schemaRefsGo rfuel (.mk t none req
      (some (.mk t2 (some []) req2 none e2 n2 none)) e n none) = [] := by
  cases rfuel with
  | zero => rfl
  | succ rfuel =>
    show Option.toList none ++ schemaRefsGo rfuel (.mk t2 (some []) req2 none e2 n2 none)
        ++ [] = []
    rw [schemaRefsGo_empty_props]
    rfl

theorem mem_refs_array_ref (nm : String) (rfuel : Nat) (r : String)
    (h : r ∈ schemaRefsGo rfuel
      (.mk (some .array) none none (some (refSchema nm)) none none none)) :
    r = refPre ++ nm := by
  cases rfuel with
  | zero => simp [schemaRefsGo] at h
  | succ rfuel =>
    have : schemaRefsGo (rfuel + 1)
        (.mk (some .array) none none (some (refSchema nm)) none none none) =
        schemaRefsGo rfuel (refSchema nm) ++ [] := rfl
    rw [this, List.append_nil] at h
    exact mem_refs_refSchema nm rfuel r h

theorem mem_refs_obj (props : List (String × Schema)) (rfuel : Nat) (r : String)
    (h : r ∈ schemaRefsGo rfuel (.mk (some .object) (some props) none none none none none)) :
    ∃ s ∈ props.map Prod.snd, ∃ rf, r ∈ schemaRefsGo rf s := by
  cases rfuel with
  | zero => simp [schemaRefsGo] at h
  | succ rfuel =>
    have : schemaRefsGo (rfuel + 1)
        (.mk (some .object) (some props) none none none none none) =
        props.foldl (fun acc kv => acc ++ schemaRefsGo rfuel kv.2) [] := rfl
    rw [this, foldl_append_flatMap, List.nil_append] at h
    obtain ⟨kv, hkv, hr⟩ := List.mem_flatMap.mp h
    exact ⟨kv.2, List.mem_map.mpr ⟨kv, hkv, rfl⟩, rfuel, hr⟩

theorem refsClosedReg_nil : refsClosedReg [] := by
  intro s hs
  simp at hs

theorem refsClosedReg_objSet (reg : JsObj Schema) (nm : String) (sc : Schema)
    (hreg : refsClosedReg reg)
    (hsc : ∀ rfuel r, r ∈ schemaRefsGo rfuel sc → ∃ n, r = refPre ++ n ∧ n ∈ jsKeys reg) :
    refsClosedReg (objSet reg nm sc) := by
  intro s hs rfuel r hr
  rcases mem_values_objSet reg nm sc s hs with h' | h'
  · obtain ⟨n, hn, hnk⟩ := hreg s h' rfuel r hr
    exact ⟨n, hn, (jsKeys_objSet reg nm sc n).mpr (Or.inl hnk)⟩
  · obtain ⟨n, hn, hnk⟩ := hsc rfuel r (h' ▸ hr)
    exact ⟨n, hn, (jsKeys_objSet reg nm sc n).mpr (Or.inl hnk)⟩

/-- Reference integrity of one `generateSchema` call: starting from a
reference-closed registry, the returned registry is reference-closed and
every `$ref` of the returned schema resolves to a key of the returned
registry. -/
theorem generateSchemaGo_refs (fuel : Nat) :
    ∀ (data : JVal) (pfx : String) (reg : JsObj Schema), refsClosedReg reg →
    refsClosedReg (generateSchemaGo fuel data pfx reg).2 ∧
    (∀ rfuel r, r ∈ schemaRefsGo rfuel (generateSchemaGo fuel data pfx reg).1 →
      ∃ n, r = refPre ++ n ∧ n ∈ jsKeys (generateSchemaGo fuel data pfx reg).2) := by
  induction fuel with
  | zero =>
    intro data pfx reg hreg
    refine ⟨hreg, ?_⟩
    intro rfuel r hr
    rw [show (generateSchemaGo 0 data pfx reg).1 =
      .mk (some .object) (some []) none none none none none from rfl,
      schemaRefsGo_empty_props] at hr
    simp at hr
  | succ fuel ih =>
    intro data pfx reg hreg
    cases data with
    | jnull =>
      refine ⟨hreg, ?_⟩
      intro rfuel r hr
      rw [show (generateSchemaGo (fuel + 1) jnull pfx reg).1 =
        .mk (some .object) (some []) none none (some jnull) none none from rfl,
        schemaRefsGo_empty_props] at hr
      simp at hr
    | jbool b =>
      refine ⟨hreg, ?_⟩
      intro rfuel r hr
      rw [show (generateSchemaGo (fuel + 1) (jbool b) pfx reg).1 =
        .mk (some .boolean) (some []) none none (some (jbool b)) none none from rfl,
        schemaRefsGo_empty_props] at hr
      simp at hr
    | jnum q =>
      refine ⟨hreg, ?_⟩
      intro rfuel r hr
      rw [show (generateSchemaGo (fuel + 1) (jnum q) pfx reg).1 =
        .mk (some (getOpenAPIType (jnum q))) (some []) none none (some (jnum q)) none none
        from rfl, schemaRefsGo_empty_props] at hr
      simp at hr
    | jstr s =>
      refine ⟨hreg, ?_⟩
      intro rfuel r hr
      rw [show (generateSchemaGo (fuel + 1) (jstr s) pfx reg).1 =
        .mk (some .string) (some []) none none (some (jstr s)) none none from rfl,
        schemaRefsGo_empty_props] at hr
      simp at hr
    | jarr xs =>
      cases xs with
      | nil =>
        refine ⟨hreg, ?_⟩
        intro rfuel r hr
        rw [show (generateSchemaGo (fuel + 1) (jarr []) pfx reg).1 =
          .mk (some .array) none none
            (some (.mk (some .object) (some []) (some []) none none none none))
            none none none from rfl, schemaRefsGo_inline_items] at hr
        simp at hr
      | cons x tl =>
        obtain ⟨hc, hrefs⟩ := ih x (pfx ++ "Item") reg hreg
        have h1 : (generateSchemaGo (fuel + 1) (jarr (x :: tl)) pfx reg).1 =
          .mk (some .array) none none (some (refSchema (pfx ++ "Item"))) none none none := rfl
        have h2 : (generateSchemaGo (fuel + 1) (jarr (x :: tl)) pfx reg).2 =
          objSet (generateSchemaGo fuel x (pfx ++ "Item") reg).2 (pfx ++ "Item")
            (generateSchemaGo fuel x (pfx ++ "Item") reg).1 := rfl
        constructor
        · rw [h2]
          exact refsClosedReg_objSet _ _ _ hc hrefs
        · intro rfuel r hr
          rw [h1] at hr
          refine ⟨pfx ++ "Item", mem_refs_array_ref (pfx ++ "Item") rfuel r hr, ?_⟩
          rw [h2]
          exact (jsKeys_objSet _ _ _ _).mpr (Or.inr rfl)
    | jobj fields =>
      have inner : ∀ (fs : List (String × JVal)) (acc : JsObj Schema × JsObj Schema),
          refsClosedReg acc.2 →
          (∀ s ∈ acc.1.map Prod.snd, ∀ rfuel r, r ∈ schemaRefsGo rfuel s →
            ∃ n, r = refPre ++ n ∧ n ∈ jsKeys acc.2) →
          refsClosedReg (fs.foldl (genPropsStep (fun d p r' => generateSchemaGo fuel d p r') pfx) acc).2 ∧
          (∀ s ∈ (fs.foldl (genPropsStep (fun d p r' => generateSchemaGo fuel d p r') pfx) acc).1.map Prod.snd,
            ∀ rfuel r, r ∈ schemaRefsGo rfuel s →
            ∃ n, r = refPre ++ n ∧ n ∈ jsKeys (fs.foldl (genPropsStep (fun d p r' => generateSchemaGo fuel d p r') pfx) acc).2) := by
        intro fs
        induction fs with
        | nil => intro acc h1 h2; exact ⟨h1, h2⟩
        | cons hd tl2 ihf =>
          intro acc hacc hprops
          rw [List.foldl_cons]
          apply ihf
          all_goals obtain ⟨k, v⟩ := hd
          all_goals cases v with
          | jnull =>
            first
            | exact hacc
            | (intro s hs rfuel r hr
               rcases mem_values_objSet acc.1 k strNullable s hs with h' | h'
               · exact hprops s h' rfuel r hr
               · rw [h', show strNullable =
                   .mk (some .string) none none none none (some true) none from rfl,
                   schemaRefsGo_no_items_no_ref] at hr
                 simp at hr)
          | jbool b =>
            first
            | exact hacc
            | (intro s hs rfuel r hr
               rcases mem_values_objSet acc.1 k _ s hs with h' | h'
               · exact hprops s h' rfuel r hr
               · rw [h', schemaRefsGo_no_items_no_ref] at hr
                 simp at hr)
          | jnum q =>
            first
            | exact hacc
            | (intro s hs rfuel r hr
               rcases mem_values_objSet acc.1 k _ s hs with h' | h'
               · exact hprops s h' rfuel r hr
               · rw [h', schemaRefsGo_no_items_no_ref] at hr
                 simp at hr)
          | jstr s2 =>
            first
            | exact hacc
            | (intro s hs rfuel r hr
               rcases mem_values_objSet acc.1 k _ s hs with h' | h'
               · exact hprops s h' rfuel r hr
               · rw [h', schemaRefsGo_no_items_no_ref] at hr
                 simp at hr)
          | jarr xs2 =>
            cases xs2 with
            | nil =>
              first
              | exact hacc
              | (intro s hs rfuel r hr
                 rcases mem_values_objSet acc.1 k _ s hs with h' | h'
                 · exact hprops s h' rfuel r hr
                 · rw [h', schemaRefsGo_inline_items] at hr
                   simp at hr)
            | cons x2 t2 =>
              first
              | exact refsClosedReg_objSet _ _ _
                  (ih x2 (pfx ++ capFirst k ++ "Item") acc.2 hacc).1
                  (ih x2 (pfx ++ capFirst k ++ "Item") acc.2 hacc).2
              | (intro s hs rfuel r hr
                 rcases mem_values_objSet acc.1 k _ s hs with h' | h'
                 · obtain ⟨n, hn, hnk⟩ := hprops s h' rfuel r hr
                   refine ⟨n, hn, ?_⟩
                   exact (jsKeys_objSet _ _ _ _).mpr (Or.inl
                     (generateSchemaGo_keys_mono fuel x2 (pfx ++ capFirst k ++ "Item")
                       acc.2 n hnk))
                 · rw [h'] at hr
                   refine ⟨pfx ++ capFirst k ++ "Item",
                     mem_refs_array_ref (pfx ++ capFirst k ++ "Item") rfuel r hr, ?_⟩
                   exact (jsKeys_objSet _ _ _ _).mpr (Or.inr rfl))
          | jobj f2 =>
            first
            | exact refsClosedReg_objSet _ _ _
                (ih (jobj f2) (pfx ++ capFirst k) acc.2 hacc).1
                (ih (jobj f2) (pfx ++ capFirst k) acc.2 hacc).2
            | (intro s hs rfuel r hr
               rcases mem_values_objSet acc.1 k _ s hs with h' | h'
               · obtain ⟨n, hn, hnk⟩ := hprops s h' rfuel r hr
                 refine ⟨n, hn, ?_⟩
                 exact (jsKeys_objSet _ _ _ _).mpr (Or.inl
                   (generateSchemaGo_keys_mono fuel (jobj f2) (pfx ++ capFirst k)
                     acc.2 n hnk))
               · rw [h'] at hr
                 refine ⟨pfx ++ capFirst k,
                   mem_refs_refSchema (pfx ++ capFirst k) rfuel r hr, ?_⟩
                 exact (jsKeys_objSet _ _ _ _).mpr (Or.inr rfl))
      obtain ⟨hc, hprops⟩ := inner fields ([], reg) hreg (by intro s hs; simp at hs)
      have hout1 : (generateSchemaGo (fuel + 1) (jobj fields) pfx reg).1 =
        .mk (some .object) (some (fields.foldl (genPropsStep (fun d p r' => generateSchemaGo fuel d p r') pfx) ([], reg)).1) none none none none none :=
        rfl
      have hout2 : (generateSchemaGo (fuel + 1) (jobj fields) pfx reg).2 =
        (fields.foldl (genPropsStep (fun d p r' => generateSchemaGo fuel d p r') pfx) ([], reg)).2 := rfl
      constructor
      · rw [hout2]
        exact hc
      · intro rfuel r hr
        rw [hout1] at hr
        obtain ⟨s, hs, rf, hr'⟩ := mem_refs_obj _ rfuel r hr
        obtain ⟨n, hn, hnk⟩ := hprops s hs rf r hr'
        refine ⟨n, hn, ?_⟩
        rw [hout2]
        exact hnk

theorem jsKeys_objLit {α : Type} (entries : List (String × α)) (k : String) :
    k ∈ jsKeys (objLit entries) ↔ k ∈ entries.map Prod.fst := by
  show k ∈ jsKeys (entries.foldl (fun o kv => objSet o kv.1 kv.2) []) ↔ _
  rw [jsKeys_foldl_objSet]
  simp [jsKeys]

theorem mem_values_objLit {α : Type} (entries : List (String × α)) (s : α)
    (h : s ∈ (objLit entries).map Prod.snd) : s ∈ entries.map Prod.snd := by
  have := mem_values_foldl_objSet entries [] s h
  simpa using this

theorem genRequestSchema_spec (curl : ParsedCurl) (pfx : String) (reg : JsObj Schema)
    (rs? : Option Schema) (reg2 : JsObj Schema)
    (h : genRequestSchema curl pfx reg = some (rs?, reg2)) (hreg : refsClosedReg reg) :
    refsClosedReg reg2 ∧ (∀ k, k ∈ jsKeys reg → k ∈ jsKeys reg2) ∧
    (∀ s, rs? = some s → ∀ rfuel r, r ∈ schemaRefsGo rfuel s →
      ∃ n, r = refPre ++ n ∧ n ∈ jsKeys reg2) := by
  rw [genRequestSchema] at h
  cases hd : curl.data with
  | none =>
    rw [hd] at h
    dsimp only at h
    have h2 : (none : Option Schema) = rs? ∧ reg = reg2 := by
      have := h
      simp only [Option.some.injEq, Prod.mk.injEq] at this
      exact this
    obtain ⟨hrs, hr2⟩ := h2
    subst hr2
    refine ⟨hreg, fun k hk => hk, ?_⟩
    intro s hs
    rw [← hrs] at hs
    cases hs
  | some d =>
    rw [hd] at h
    dsimp only at h
    by_cases ht : jsTruthy d = true
    · rw [if_pos ht] at h
      by_cases hct : curl.contentType = some "application/x-www-form-urlencoded"
      · rw [if_pos hct] at h
        cases hfd : parseFormData d with
        | none =>
          rw [hfd] at h
          cases h
        | some fd =>
          rw [hfd] at h
          dsimp only at h
          have h2 : some (generateSchemaGo 101 (strObjToJVal fd) (pfx ++ "Request") reg).1
              = rs? ∧ (generateSchemaGo 101 (strObjToJVal fd) (pfx ++ "Request") reg).2
              = reg2 := by
            have := h
            simp only [Option.some.injEq, Prod.mk.injEq] at this
            exact this
          obtain ⟨hrs, hr2⟩ := h2
          subst hr2
          obtain ⟨hc, hrefs⟩ :=
            generateSchemaGo_refs 101 (strObjToJVal fd) (pfx ++ "Request") reg hreg
          refine ⟨hc, ?_, ?_⟩
          · intro k hk
            exact generateSchemaGo_keys_mono 101 (strObjToJVal fd) (pfx ++ "Request")
              reg k hk
          · intro s hs
            rw [← hrs] at hs
            injection hs with hs'
            rw [← hs']
            exact hrefs
      · rw [if_neg hct] at h
        have h2 : some (generateSchemaGo 101 d (pfx ++ "Request") reg).1 = rs? ∧
            (generateSchemaGo 101 d (pfx ++ "Request") reg).2 = reg2 := by
          have := h
          simp only [Option.some.injEq, Prod.mk.injEq] at this
          exact this
        obtain ⟨hrs, hr2⟩ := h2
        subst hr2
        obtain ⟨hc, hrefs⟩ := generateSchemaGo_refs 101 d (pfx ++ "Request") reg hreg
        refine ⟨hc, ?_, ?_⟩
        · intro k hk
          exact generateSchemaGo_keys_mono 101 d (pfx ++ "Request") reg k hk
        · intro s hs
          rw [← hrs] at hs
          injection hs with hs'
          rw [← hs']
          exact hrefs
    · rw [if_neg ht] at h
      have h2 : (none : Option Schema) = rs? ∧ reg = reg2 := by
        have := h
        simp only [Option.some.injEq, Prod.mk.injEq] at this
        exact this
      obtain ⟨hrs, hr2⟩ := h2
      subst hr2
      refine ⟨hreg, fun k hk => hk, ?_⟩
      intro s hs
      rw [← hrs] at hs
      cases hs

/-! ## Claim C10 -/

theorem genOperation_requestBody (curl : ParsedCurl) (options : OpenAPIOptions)
    (pathName operationId schemaPfx : String) (rs? : Option Schema) :
    (genOperation curl options pathName operationId schemaPfx rs?).requestBody =
      match rs? with
      | some _ => some { contentType := getContentType curl.contentType,
                         ref := refPre ++ (schemaPfx ++ "Request") }
      | none => none := rfl

theorem genOperation_responseRef (curl : ParsedCurl) (options : OpenAPIOptions)
    (pathName operationId schemaPfx : String) (rs? : Option Schema) :
    (genOperation curl options pathName operationId schemaPfx rs?).responseRef =
      refPre ++ (schemaPfx ++ "Response") := rfl

/-- Claim C10: referential integrity of the generated document.  Every
`$ref` string occurring anywhere in `generate`'s output — in the
`requestBody`, in the 200 response, or nested (to any depth `rfuel`) inside
any registered component schema — is `#/components/schemas/<n>` for a key
`n` present in that same document's `components.schemas`. -/
theorem generate_refs_resolve (curl : ParsedCurl) (response : JVal)
    (options : OpenAPIOptions) (doc : GenDoc) (rfuel : Nat) (r : String)
    (hgen : generate curl response options = some doc) (hr : r ∈ docRefs rfuel doc) :
    ∃ n, r = refPre ++ n ∧ n ∈ jsKeys doc.componentsSchemas := by
  simp only [generate] at hgen
  cases hreq : genRequestSchema curl
      (capitalizeFirstLetter (genOperationId curl options (genPathName curl options)))
      (generateSchemaGo 101 response
        (capitalizeFirstLetter (genOperationId curl options (genPathName curl options)))
        []).2 with
  | none =>
    rw [hreq] at hgen
    cases hgen
  | some pr =>
    obtain ⟨rs?, reg2⟩ := pr
    rw [hreq] at hgen
    obtain ⟨hreg2, hmono2, hreq3⟩ := genRequestSchema_spec curl
      (capitalizeFirstLetter (genOperationId curl options (genPathName curl options)))
      (generateSchemaGo 101 response
        (capitalizeFirstLetter (genOperationId curl options (genPathName curl options)))
        []).2 rs? reg2 hreq
      (generateSchemaGo_refs 101 response _ [] refsClosedReg_nil).1
    injection hgen with hdoc
    subst hdoc
    set pfx := capitalizeFirstLetter (genOperationId curl options (genPathName curl options))
      with hpfx
    set fq := (braceParams (genPathName curl options)).foldl
      (fun acc p => jsDelete acc p) curl.queryParams with hfq
    set entries := genEntries pfx (generateSchemaGo 101 response pfx []).1 rs? fq
      (generateSchemaGo 101 (strObjToJVal fq) (pfx ++ "Query") reg2).1
      (generateSchemaGo 101 (strObjToJVal fq) (pfx ++ "Query") reg2).2 with hentries
    have hq := generateSchemaGo_refs 101 (strObjToJVal fq) (pfx ++ "Query") reg2 hreg2
    have hmono3 : ∀ n, n ∈ jsKeys reg2 →
        n ∈ jsKeys (generateSchemaGo 101 (strObjToJVal fq) (pfx ++ "Query") reg2).2 :=
      fun n hn =>
        generateSchemaGo_keys_mono 101 (strObjToJVal fq) (pfx ++ "Query") reg2 n hn
    have hkeys3 : ∀ n,
        n ∈ jsKeys (generateSchemaGo 101 (strObjToJVal fq) (pfx ++ "Query") reg2).2 →
        n ∈ jsKeys (objLit entries) := by
      intro n hn
      rw [jsKeys_objLit, hentries, genEntries.eq_def]
      simp only [List.map_append, List.mem_append]
      right
      exact hn
    rw [docRefs] at hr
    simp only [List.mem_append] at hr
    rcases hr with (hr | hr) | hr
    · -- requestBody reference
      rw [genOperation_requestBody] at hr
      cases hrs : rs? with
      | none =>
        rw [hrs] at hr
        simp at hr
      | some rs =>
        rw [hrs] at hr
        simp only [List.mem_singleton] at hr
        refine ⟨pfx ++ "Request", by simpa using hr, ?_⟩
        rw [jsKeys_objLit, hentries, genEntries.eq_def, hrs]
        simp only [List.map_append, List.mem_append]
        left; left; right
        simp
    · -- response reference
      rw [genOperation_responseRef, List.mem_singleton] at hr
      refine ⟨pfx ++ "Response", hr, ?_⟩
      rw [jsKeys_objLit, hentries, genEntries.eq_def]
      simp only [List.map_append, List.mem_append]
      left; left; left
      simp
    · -- references inside registered component schemas
      rw [foldl_append_flatMap, List.nil_append] at hr
      obtain ⟨kv, hkv, hrr⟩ := List.mem_flatMap.mp hr
      have hval : kv.2 ∈ entries.map Prod.snd :=
        mem_values_objLit entries kv.2 (List.mem_map.mpr ⟨kv, hkv, rfl⟩)
      rw [hentries, genEntries.eq_def] at hval
      simp only [List.map_append, List.mem_append] at hval
      rcases hval with ((hval | hval) | hval) | hval
      · -- the response schema
        simp only [List.map_cons, List.map_nil, List.mem_singleton] at hval
        obtain ⟨n, hn, hnk⟩ :=
          (generateSchemaGo_refs 101 response pfx [] refsClosedReg_nil).2 rfuel r
            (hval ▸ hrr)
        exact ⟨n, hn, hkeys3 n (hmono3 n (hmono2 n hnk))⟩
      · -- the request schema
        cases hrs : rs? with
        | none =>
          rw [hrs] at hval
          simp at hval
        | some rs =>
          rw [hrs] at hval
          simp only [List.map_cons, List.map_nil, List.mem_singleton] at hval
          obtain ⟨n, hn, hnk⟩ := hreq3 rs hrs rfuel r (hval ▸ hrr)
          exact ⟨n, hn, hkeys3 n (hmono3 n hnk)⟩
      · -- the query schema
        by_cases hlen : fq.length > 0
        · rw [if_pos hlen] at hval
          simp only [List.map_cons, List.map_nil, List.mem_singleton] at hval
          obtain ⟨n, hn, hnk⟩ := hq.2 rfuel r (hval ▸ hrr)
          exact ⟨n, hn, hkeys3 n hnk⟩
        · rw [if_neg hlen] at hval
          simp at hval
      · -- a registry schema
        obtain ⟨n, hn, hnk⟩ := hq.1 kv.2 hval rfuel r hrr
        exact ⟨n, hn, hkeys3 n hnk⟩

/-- Claim C10 witness: the integrity theorem applied to the 200-response
reference of a concrete generated document. -/
theorem generate_refs_resolve_witness :
    ∃ n,
      (((generate
        { method := "GET", url := "https://a.com/b", headers := [], queryParams := [],
          data := none, contentType := none }
        (jobj [("b", jobj [("x", jnum 1)])])
        { operationName := some "test" }).getD
          ⟨"", "", ⟨"", "", [], [], none, ""⟩, []⟩).operation.responseRef) = refPre ++ n ∧
      n ∈ jsKeys ((generate
        { method := "GET", url := "https://a.com/b", headers := [], queryParams := [],
          data := none, contentType := none }
        (jobj [("b", jobj [("x", jnum 1)])])
        { operationName := some "test" }).getD
          ⟨"", "", ⟨"", "", [], [], none, ""⟩, []⟩).componentsSchemas :=
  generate_refs_resolve
    { method := "GET", url := "https://a.com/b", headers := [], queryParams := [],
      data := none, contentType := none }
    (jobj [("b", jobj [("x", jnum 1)])])
    { operationName := some "test" }
    _ 1 _ (by rfl) (by rw [docRefs]; simp)

/-! ## Claim C8 -/

theorem genRequestSchema_some_rs (curl : ParsedCurl) (pfx : String) (reg : JsObj Schema)
    (rs? : Option Schema) (reg2 : JsObj Schema)
    (h : genRequestSchema curl pfx reg = some (rs?, reg2))
    (d : JVal) (hd : curl.data = some d) (ht : jsTruthy d = true) :
    ∃ rs, rs? = some rs := by
  rw [genRequestSchema, hd] at h
  dsimp only at h
  rw [if_pos ht] at h
  by_cases hct : curl.contentType = some "application/x-www-form-urlencoded"
  · rw [if_pos hct] at h
    cases hfd : parseFormData d with
    | none =>
      rw [hfd] at h
      cases h
    | some fd =>
      rw [hfd] at h
      dsimp only at h
      have h2 : some (generateSchemaGo 101 (strObjToJVal fd) (pfx ++ "Request") reg).1
          = rs? := by
        have := h
        simp only [Option.some.injEq, Prod.mk.injEq] at this
        exact this.1
      exact ⟨_, h2.symm⟩
  · rw [if_neg hct] at h
    have h2 : some (generateSchemaGo 101 d (pfx ++ "Request") reg).1 = rs? := by
      have := h
      simp only [Option.some.injEq, Prod.mk.injEq] at this
      exact this.1
    exact ⟨_, h2.symm⟩

/-- Claim C8, counterexample.  The body `false` (a raw `--data-raw 'false'`
body is parsed to the JSON value `false`) is present and non-empty, yet the
generated `components.schemas` has no `<Prefix>Request` entry: the source's
`if (curl.data)` guard is JS truthiness, which drops `false`, `0` and `""`
bodies.  So "contains a `<Prefix>Request` entry if and only if the parsed
body was non-empty" fails in the only-if..if direction. -/
theorem generate_request_entry_missing_for_falsy_body :
    (generate
      { method := "POST", url := "", headers := [], queryParams := [],
        data := some (jbool false), contentType := some "application/json" }
      (jnum 1) { operationName := some "op" }).map
      (fun doc => jsKeys doc.componentsSchemas) = some ["OpResponse"] := by rfl

/-- Claim C8 (amended: the "if and only if" becomes "if", with presence
decided by JS truthiness).  For every generated document: its
`components.schemas` always contains an entry named `<Prefix>Response`; it
contains `<Prefix>Request` if the parsed body is present and truthy; and it
contains `<Prefix>Query` if the query-parameter mapping minus path-parameter
names is non-empty.  (The converses can fail: falsy bodies — `false`, `0`,
`""` — produce no Request entry, and a registered nested schema whose minted
name coincides with `<Prefix>Request` or `<Prefix>Query` can add such an
entry without a body or query.) -/
theorem generate_named_schema_entries (curl : ParsedCurl) (response : JVal)
    (options : OpenAPIOptions) (doc : GenDoc)
    (hgen : generate curl response options = some doc) :
    (capitalizeFirstLetter (genOperationId curl options (genPathName curl options)) ++
        "Response") ∈ jsKeys doc.componentsSchemas ∧
    (∀ d, curl.data = some d → jsTruthy d = true →
      (capitalizeFirstLetter (genOperationId curl options (genPathName curl options)) ++
        "Request") ∈ jsKeys doc.componentsSchemas) ∧
    (((braceParams (genPathName curl options)).foldl (fun acc p => jsDelete acc p)
        curl.queryParams).length > 0 →
      (capitalizeFirstLetter (genOperationId curl options (genPathName curl options)) ++
        "Query") ∈ jsKeys doc.componentsSchemas) := by
  simp only [generate] at hgen
  cases hreq : genRequestSchema curl
      (capitalizeFirstLetter (genOperationId curl options (genPathName curl options)))
      (generateSchemaGo 101 response
        (capitalizeFirstLetter (genOperationId curl options (genPathName curl options)))
        []).2 with
  | none =>
    rw [hreq] at hgen
    cases hgen
  | some pr =>
    obtain ⟨rs?, reg2⟩ := pr
    rw [hreq] at hgen
    injection hgen with hdoc
    subst hdoc
    refine ⟨?_, ?_, ?_⟩
    · rw [jsKeys_objLit, genEntries.eq_def]
      simp only [List.map_append, List.mem_append]
      left; left; left
      simp
    · intro d hd ht
      obtain ⟨rs, hrs⟩ := genRequestSchema_some_rs curl _ _ rs? reg2 hreq d hd ht
      rw [jsKeys_objLit, genEntries.eq_def, hrs]
      simp only [List.map_append, List.mem_append]
      left; left; right
      simp
    · intro hlen
      rw [jsKeys_objLit, genEntries.eq_def]
      simp only [List.map_append, List.mem_append]
      left; right
      rw [if_pos hlen]
      simp

/-- Claim C8 witness: the amended theorem at a concrete document with a
truthy body and one query parameter. -/
theorem generate_named_schema_entries_witness :
    (capitalizeFirstLetter (genOperationId exCurl exOpts (genPathName exCurl exOpts)) ++
        "Response") ∈ jsKeys exDoc.componentsSchemas ∧
    (capitalizeFirstLetter (genOperationId exCurl exOpts (genPathName exCurl exOpts)) ++
        "Request") ∈ jsKeys exDoc.componentsSchemas ∧
    (capitalizeFirstLetter (genOperationId exCurl exOpts (genPathName exCurl exOpts)) ++
        "Query") ∈ jsKeys exDoc.componentsSchemas := by
  obtain ⟨h1, h2, h3⟩ := generate_named_schema_entries exCurl exResp exOpts exDoc (by rfl)
  exact ⟨h1, h2 (jobj [("a", jstr "1")]) rfl rfl, h3 (by decide)⟩

/-! ## Facts about sanitize -/

theorem matchLit_nil (ci : Bool) (s : List Char) : matchLit ci [] s = some s := rfl

theorem matchLit_cons (ci : Bool) (l c : Char) (ls cs : List Char) :
    matchLit ci (l :: ls) (c :: cs) =
      if (if ci then ciChar l c else decide (l = c)) then matchLit ci ls cs else none := rfl

theorem replAll_succ (f : List Char → Option (List Char)) (repl : List Char)
    (fuel : Nat) (s : List Char) :
    CurlParser.replAll f repl (fuel + 1) s =
      match f s with
      | some rest => repl ++ CurlParser.replAll f repl fuel rest
      | none =>
        match s with
        | [] => []
        | c :: cs => c :: CurlParser.replAll f repl fuel cs := rfl

theorem replAll_succ_some (f : List Char → Option (List Char)) (repl : List Char)
    (fuel : Nat) (s rest : List Char) (h : f s = some rest) :
    CurlParser.replAll f repl (fuel + 1) s = repl ++ CurlParser.replAll f repl fuel rest := by
  rw [replAll_succ, h]

theorem replAll_succ_none_nil (f : List Char → Option (List Char)) (repl : List Char)
    (fuel : Nat) (h : f [] = none) :
    CurlParser.replAll f repl (fuel + 1) [] = [] := by
  rw [replAll_succ, h]

theorem replAll_succ_none_cons (f : List Char → Option (List Char)) (repl : List Char)
    (fuel : Nat) (c : Char) (cs : List Char) (h : f (c :: cs) = none) :
    CurlParser.replAll f repl (fuel + 1) (c :: cs) = c :: CurlParser.replAll f repl fuel cs := by
  rw [replAll_succ, h]

theorem hasTokCi_cons (tok : List Char) (c : Char) (cs : List Char)
    (h : hasTokCi tok (c :: cs) = false) :
    matchLit true tok (c :: cs) = none ∧ hasTokCi tok cs = false := by
  rw [hasTokCi] at h
  cases hm : matchLit true tok (c :: cs) with
  | some r =>
    rw [hm] at h
    simp at h
  | none =>
    rw [hm] at h
    simp at h
    exact ⟨rfl, h⟩

theorem hasTokCi_dropWhile (tok : List Char) (p : Char → Bool) :
    ∀ s, hasTokCi tok s = false → hasTokCi tok (s.dropWhile p) = false := by
  intro s
  induction s with
  | nil => intro h; exact h
  | cons c cs ih =>
    intro h
    rw [List.dropWhile_cons]
    split
    · exact ih (hasTokCi_cons tok c cs h).2
    · exact h

theorem hasTokCi_drop (tok : List Char) :
    ∀ (k : Nat) (s : List Char), hasTokCi tok s = false → hasTokCi tok (s.drop k) = false := by
  intro k
  induction k with
  | zero => intro s h; exact h
  | succ k ih =>
    intro s h
    cases s with
    | nil => exact h
    | cons c cs =>
      rw [List.drop_succ_cons]
      exact ih cs (hasTokCi_cons tok c cs h).2

theorem matchLit_append (ci : Bool) :
    ∀ (tok t u r : List Char), matchLit ci tok t = some r →
      matchLit ci tok (t ++ u) = some (r ++ u) := by
  intro tok
  induction tok with
  | nil =>
    intro t u r h
    have h' : some t = some r := h
    injection h' with h2
    rw [← h2, matchLit_nil]
  | cons l ls ih =>
    intro t u r h
    cases t with
    | nil =>
      have h' : (none : Option (List Char)) = some r := h
      cases h'
    | cons c cs =>
      rw [matchLit_cons] at h
      rw [List.cons_append, matchLit_cons]
      cases hB : (if ci then ciChar l c else decide (l = c)) with
      | true =>
        rw [hB, if_pos rfl] at h
        rw [if_pos rfl]
        exact ih cs u r h
      | false =>
        rw [hB, if_neg Bool.false_ne_true] at h
        cases h

theorem hasTokCi_of_append (tk : Char) (tks : List Char) :
    ∀ (t u : List Char), hasTokCi (tk :: tks) (t ++ u) = false →
      hasTokCi (tk :: tks) t = false := by
  intro t
  induction t with
  | nil =>
    intro u _
    rw [hasTokCi]
    rfl
  | cons c cs ih =>
    intro u h
    rw [List.cons_append] at h
    obtain ⟨hm, ht⟩ := hasTokCi_cons _ _ _ h
    rw [hasTokCi]
    cases hm2 : matchLit true (tk :: tks) (c :: cs) with
    | some r =>
      have := matchLit_append true (tk :: tks) (c :: cs) u r hm2
      rw [List.cons_append] at this
      rw [this] at hm
      cases hm
    | none =>
      simp only [Option.isSome_none, Bool.false_or]
      exact ih u ht

theorem mem_trimL (c : Char) (l : List Char) (h : c ∈ trimL l) : c ∈ l := by
  obtain ⟨u, hu⟩ := List.rdropWhile_prefix isJsSpace (l.dropWhile isJsSpace)
  have h1 : c ∈ l.dropWhile isJsSpace := by
    rw [← hu]
    exact List.mem_append.mpr (Or.inl h)
  rw [← List.takeWhile_append_dropWhile isJsSpace l]
  exact List.mem_append.mpr (Or.inr h1)

theorem hasTokCi_trimL (tk : Char) (tks : List Char) (s : List Char)
    (h : hasTokCi (tk :: tks) s = false) :
    hasTokCi (tk :: tks) (trimL s) = false := by
  have h1 := hasTokCi_dropWhile (tk :: tks) isJsSpace s h
  obtain ⟨u, hu⟩ := List.rdropWhile_prefix isJsSpace (s.dropWhile isJsSpace)
  refine hasTokCi_of_append tk tks (trimL s) u ?_
  rw [trimL, hu]
  exact h1

theorem replAll_id (f : List Char → Option (List Char)) (repl : List Char)
    (P : List Char → Prop) (htail : ∀ c cs, P (c :: cs) → P cs)
    (hf : ∀ t, P t → f t = none) :
    ∀ (fuel : Nat) (s : List Char), P s → CurlParser.replAll f repl fuel s = s := by
  intro fuel
  induction fuel with
  | zero => intro s _; rfl
  | succ fuel ih =>
    intro s hs
    cases s with
    | nil => exact replAll_succ_none_nil f repl fuel (hf [] hs)
    | cons c cs =>
      rw [replAll_succ_none_cons f repl fuel c cs (hf _ hs)]
      rw [ih cs (htail c cs hs)]

theorem matchLit_true_of_false :
    ∀ (tok s r : List Char), matchLit false tok s = some r → matchLit true tok s = some r := by
  intro tok
  induction tok with
  | nil => intro s r h; exact h
  | cons l ls ih =>
    intro s r h
    cases s with
    | nil =>
      have h' : (none : Option (List Char)) = some r := h
      cases h'
    | cons c cs =>
      rw [matchLit_cons] at h
      rw [matchLit_cons]
      by_cases hc : l = c
      · rw [if_pos (by rw [hc]; simp [ciChar])]
        rw [if_pos (by simp [hc])] at h
        exact ih cs r h
      · rw [if_neg (by simp [hc])] at h
        cases h

theorem tryAuthAt_none (q : Char) (t : List Char)
    (h : hasTokCi ['-', 'H'] t = false) : CurlParser.tryAuthAt q t = none := by
  have hm : matchLit true ['-', 'H'] t = none := by
    cases t with
    | nil => rfl
    | cons c cs => exact (hasTokCi_cons _ _ _ h).1
  simp [CurlParser.tryAuthAt, hm]

theorem tryDenyAt_none (hd : String) (t : List Char)
    (h : hasTokCi ['-', 'H'] t = false) : CurlParser.tryDenyAt hd t = none := by
  have hm : matchLit true ['-', 'H'] t = none := by
    cases t with
    | nil => rfl
    | cons c cs => exact (hasTokCi_cons _ _ _ h).1
  have h2 := hasTokCi_dropWhile ['-', 'H'] isJsSpace t h
  have hm2 : matchLit true ['-', 'H'] (t.dropWhile isJsSpace) = none := by
    cases hdw : t.dropWhile isJsSpace with
    | nil => rfl
    | cons c cs =>
      rw [hdw] at h2
      exact (hasTokCi_cons _ _ _ h2).1
  simp [CurlParser.tryDenyAt, hm, hm2]

theorem tryFixHAt_none (t : List Char)
    (h : hasTokCi ['-', 'H'] t = false) : CurlParser.tryFixHAt t = none := by
  have h2 := hasTokCi_dropWhile ['-', 'H'] isJsSpace t h
  have hm2 : matchLit false ['-', 'H'] (t.dropWhile isJsSpace) = none := by
    cases hmf : matchLit false ['-', 'H'] (t.dropWhile isJsSpace) with
    | none => rfl
    | some r =>
      have hmt := matchLit_true_of_false ['-', 'H'] _ r hmf
      cases hdw : t.dropWhile isJsSpace with
      | nil =>
        rw [hdw] at hmt
        cases hmt
      | cons c cs =>
        rw [hdw] at hmt h2
        rw [(hasTokCi_cons _ _ _ h2).1] at hmt
        cases hmt
  simp [CurlParser.tryFixHAt, hm2]

theorem lastIdxNl_eq_none : ∀ (l : List Char), '\n' ∉ l → CurlParser.lastIdxNl l = none := by
  intro l
  induction l with
  | nil => intro _; rfl
  | cons c cs ih =>
    intro h
    rw [List.mem_cons] at h
    push_neg at h
    rw [CurlParser.lastIdxNl, ih h.2, if_neg (fun hc => h.1 hc.symm)]

theorem tryContAt_none_wsOnly (t : List Char) (h : wsOnlySpace t) :
    CurlParser.tryContAt t = none := by
  rw [CurlParser.tryContAt.eq_def]
  split
  · rename_i rest
    have hnl : '\n' ∉ rest.takeWhile isJsSpace := by
      intro hmem
      have hrest : '\n' ∈ rest := (List.takeWhile_prefix isJsSpace).sublist.subset hmem
      have := h '\n' (List.mem_cons_of_mem _ hrest) (by decide)
      cases this
    simp only [lastIdxNl_eq_none _ hnl]
  · rfl

theorem matchLit_cons_t (l c : Char) (ls cs : List Char) :
    matchLit true (l :: ls) (c :: cs) = if ciChar l c then matchLit true ls cs else none := rfl

theorem wsPlus_cons (c : Char) (cs : List Char) :
    wsPlus (c :: cs) = if isJsSpace c then some (cs.dropWhile isJsSpace) else none := rfl

theorem wsPlus_some (s rest : List Char) (h : wsPlus s = some rest) :
    ∃ c cs, s = c :: cs ∧ isJsSpace c = true ∧ rest = cs.dropWhile isJsSpace := by
  cases s with
  | nil => cases h
  | cons c cs =>
    rw [wsPlus_cons] at h
    by_cases hc : isJsSpace c = true
    · rw [if_pos hc] at h
      injection h with h'
      exact ⟨c, cs, rfl, hc, h'.symm⟩
    · rw [if_neg hc] at h
      cases h

theorem tryContAt_some (s rest : List Char) (h : CurlParser.tryContAt s = some rest) :
    ∃ c cs i, s = c :: cs ∧ rest = cs.drop (i + 1) := by
  rw [CurlParser.tryContAt.eq_def] at h
  split at h
  · rename_i rest0
    cases hli : CurlParser.lastIdxNl (rest0.takeWhile isJsSpace) with
    | some i =>
      simp only [hli] at h
      injection h with h2
      exact ⟨'\\', rest0, i, rfl, h2.symm⟩
    | none =>
      simp only [hli] at h
      cases h
  · cases h

theorem wsPlus_noH_shrink :
    ∀ (t rest : List Char), wsPlus t = some rest → hasTokCi ['-', 'H'] t = false →
      hasTokCi ['-', 'H'] rest = false ∧ rest.length < t.length := by
  intro t rest h hT
  obtain ⟨c, cs, ht, _, hrest⟩ := wsPlus_some t rest h
  subst ht
  subst hrest
  constructor
  · exact hasTokCi_dropWhile _ _ cs (hasTokCi_cons _ _ _ hT).2
  · have h1 : (cs.dropWhile isJsSpace).length ≤ cs.length :=
      (List.dropWhile_sublist isJsSpace).length_le
    simp only [List.length_cons]
    omega

theorem tryContAt_noH_shrink :
    ∀ (t rest : List Char), CurlParser.tryContAt t = some rest →
      hasTokCi ['-', 'H'] t = false →
      hasTokCi ['-', 'H'] rest = false ∧ rest.length < t.length := by
  intro t rest h hT
  obtain ⟨c, cs, i, ht, hrest⟩ := tryContAt_some t rest h
  subst ht
  subst hrest
  constructor
  · exact hasTokCi_drop _ (i + 1) cs (hasTokCi_cons _ _ _ hT).2
  · simp only [List.length_drop, List.length_cons]
    omega

theorem replAll_wsPlus_nil (fuel : Nat) : CurlParser.replAll wsPlus [' '] fuel [] = [] := by
  cases fuel with
  | zero => rfl
  | succ fuel => exact replAll_succ_none_nil wsPlus [' '] fuel rfl

theorem replAll_head_cases (f : List Char → Option (List Char)) (fuel : Nat) (s : List Char) :
    CurlParser.replAll f [' '] fuel s = [] ∨
    (∃ tl, CurlParser.replAll f [' '] fuel s = ' ' :: tl) ∨
    (∃ c cs tl, s = c :: cs ∧ CurlParser.replAll f [' '] fuel s = c :: tl) := by
  cases fuel with
  | zero =>
    cases s with
    | nil => exact Or.inl rfl
    | cons c cs => exact Or.inr (Or.inr ⟨c, cs, cs, rfl, rfl⟩)
  | succ fuel =>
    cases hfs : f s with
    | some rest =>
      exact Or.inr (Or.inl ⟨_, replAll_succ_some f [' '] fuel s rest hfs⟩)
    | none =>
      cases s with
      | nil => exact Or.inl (replAll_succ_none_nil f [' '] fuel hfs)
      | cons c cs =>
        exact Or.inr (Or.inr ⟨c, cs, _, rfl, replAll_succ_none_cons f [' '] fuel c cs hfs⟩)

theorem replAll_preserves_noH (f : List Char → Option (List Char))
    (hrest : ∀ t rest, f t = some rest → hasTokCi ['-', 'H'] t = false →
      hasTokCi ['-', 'H'] rest = false ∧ rest.length < t.length) :
    ∀ (fuel : Nat) (s : List Char), s.length < fuel → hasTokCi ['-', 'H'] s = false →
      hasTokCi ['-', 'H'] (CurlParser.replAll f [' '] fuel s) = false := by
  intro fuel
  induction fuel with
  | zero => intro s hlen _; exact absurd hlen (Nat.not_lt_zero _)
  | succ fuel ih =>
    intro s hlen hs
    cases hfs : f s with
    | some rest =>
      obtain ⟨hr, hl⟩ := hrest s rest hfs hs
      rw [replAll_succ_some f [' '] fuel s rest hfs, List.singleton_append]
      have hrec := ih rest (by omega) hr
      rw [hasTokCi, matchLit_cons_t]
      rw [show ciChar '-' ' ' = false from rfl, if_neg Bool.false_ne_true]
      simp [hrec]
    | none =>
      cases s with
      | nil =>
        rw [replAll_succ_none_nil f [' '] fuel hfs]
        exact hs
      | cons c cs =>
        rw [replAll_succ_none_cons f [' '] fuel c cs hfs]
        obtain ⟨hm, ht⟩ := hasTokCi_cons _ _ _ hs
        have hrec := ih cs (by simp only [List.length_cons] at hlen; omega) ht
        rw [hasTokCi]
        have hmout : matchLit true ['-', 'H']
            (c :: CurlParser.replAll f [' '] fuel cs) = none := by
          rw [matchLit_cons_t]
          cases hcc : ciChar '-' c with
          | false => rw [if_neg (by simp [hcc])]
          | true =>
            rw [if_pos rfl]
            have hm2 : matchLit true ['H'] cs = none := by
              rw [matchLit_cons_t, if_pos hcc] at hm
              exact hm
            rcases replAll_head_cases f fuel cs with hout | ⟨tl, hout⟩ | ⟨c2, cs2, tl, hceq, hout⟩
            · rw [hout]; rfl
            · rw [hout, matchLit_cons_t, if_neg (by decide)]
            · subst hceq
              rw [matchLit_cons_t] at hm2
              rw [hout, matchLit_cons_t]
              cases hc2 : ciChar 'H' c2 with
              | false => rw [if_neg (by simp [hc2])]
              | true =>
                rw [if_pos hc2, matchLit_nil] at hm2
                cases hm2
        rw [hmout]
        simp [hrec]

theorem collapse_mem : ∀ (fuel : Nat) (s : List Char), s.length < fuel →
    ∀ c ∈ CurlParser.replAll wsPlus [' '] fuel s, c = ' ' ∨ isJsSpace c = false := by
  intro fuel
  induction fuel with
  | zero => intro s hlen; exact absurd hlen (Nat.not_lt_zero _)
  | succ fuel ih =>
    intro s hlen c hc
    cases hfs : wsPlus s with
    | some rest =>
      obtain ⟨c0, cs, hs0, hsp, hrest⟩ := wsPlus_some s rest hfs
      rw [replAll_succ_some wsPlus [' '] fuel s rest hfs, List.singleton_append] at hc
      rcases List.mem_cons.mp hc with hceq | hcm
      · exact Or.inl hceq
      · refine ih rest ?_ c hcm
        subst hs0
        subst hrest
        have h1 : (cs.dropWhile isJsSpace).length ≤ cs.length :=
          (List.dropWhile_sublist isJsSpace).length_le
        simp only [List.length_cons] at hlen
        omega
    | none =>
      cases s with
      | nil =>
        rw [replAll_succ_none_nil wsPlus [' '] fuel hfs] at hc
        cases hc
      | cons c0 cs =>
        rw [replAll_succ_none_cons wsPlus [' '] fuel c0 cs hfs] at hc
        rcases List.mem_cons.mp hc with hceq | hcm
        · subst hceq
          right
          cases hspc : isJsSpace c with
          | false => rfl
          | true =>
            rw [wsPlus_cons, if_pos hspc] at hfs
            cases hfs
        · exact ih cs (by simp only [List.length_cons] at hlen; omega) c hcm

theorem collapse_wsOnly (fuel : Nat) (s : List Char) (hlen : s.length < fuel) :
    wsOnlySpace (CurlParser.replAll wsPlus [' '] fuel s) := by
  intro c hc hsp
  rcases collapse_mem fuel s hlen c hc with h | h
  · exact h
  · rw [h] at hsp
    cases hsp

theorem collapse_noTwoWs : ∀ (fuel : Nat) (s : List Char), s.length < fuel →
    noTwoWs (CurlParser.replAll wsPlus [' '] fuel s) := by
  intro fuel
  induction fuel with
  | zero => intro s hlen; exact absurd hlen (Nat.not_lt_zero _)
  | succ fuel ih =>
    intro s hlen
    cases hfs : wsPlus s with
    | some rest =>
      obtain ⟨c0, cs, hs0, hsp, hrest⟩ := wsPlus_some s rest hfs
      rw [replAll_succ_some wsPlus [' '] fuel s rest hfs, List.singleton_append]
      have hlr : rest.length < fuel := by
        subst hs0
        subst hrest
        have h1 : (cs.dropWhile isJsSpace).length ≤ cs.length :=
          (List.dropWhile_sublist isJsSpace).length_le
        simp only [List.length_cons] at hlen
        omega
      refine List.chain'_cons'.mpr ⟨?_, ih rest hlr⟩
      intro b hb
      cases hrestc : rest with
      | nil =>
        rw [hrestc, replAll_wsPlus_nil] at hb
        cases hb
      | cons c2 cs2 =>
        have hc2 : isJsSpace c2 = false := by
          have hw := List.head?_dropWhile_not isJsSpace cs
          rw [← hrest, hrestc] at hw
          simpa using hw
        have hwr : wsPlus (c2 :: cs2) = none := by
          rw [wsPlus_cons, if_neg (by simp [hc2])]
        cases fuel with
        | zero =>
          rw [hrestc] at hlr
          simp at hlr
        | succ fuel2 =>
          rw [hrestc, replAll_succ_none_cons wsPlus [' '] fuel2 c2 cs2 hwr] at hb
          have hb2 : c2 = b := by simpa using hb
          subst hb2
          intro hand
          rw [hc2] at hand
          cases hand.2
    | none =>
      cases s with
      | nil =>
        rw [replAll_succ_none_nil wsPlus [' '] fuel hfs]
        exact List.chain'_nil
      | cons c0 cs =>
        rw [replAll_succ_none_cons wsPlus [' '] fuel c0 cs hfs]
        have hc0 : isJsSpace c0 = false := by
          cases hspc : isJsSpace c0 with
          | false => rfl
          | true =>
            rw [wsPlus_cons, if_pos hspc] at hfs
            cases hfs
        refine List.chain'_cons'.mpr
          ⟨?_, ih cs (by simp only [List.length_cons] at hlen; omega)⟩
        intro b _ hand
        rw [hc0] at hand
        cases hand.1

theorem collapse_id : ∀ (z : List Char), wsOnlySpace z → noTwoWs z →
    ∀ (fuel : Nat), CurlParser.replAll wsPlus [' '] fuel z = z := by
  intro z
  induction z with
  | nil => intro _ _ fuel; exact replAll_wsPlus_nil fuel
  | cons c cs ih =>
    intro h1 h2 fuel
    cases fuel with
    | zero => rfl
    | succ fuel =>
      cases hspc : isJsSpace c with
      | true =>
        have hceq : c = ' ' := h1 c (List.mem_cons_self c cs) hspc
        have hws : wsPlus (c :: cs) = some (cs.dropWhile isJsSpace) := by
          rw [wsPlus_cons, if_pos hspc]
        have hdw : cs.dropWhile isJsSpace = cs := by
          cases cs with
          | nil => rfl
          | cons d ds =>
            have hR := (List.chain'_cons'.mp h2).1 d (by simp)
            have hd : isJsSpace d = false := by
              cases hdd : isJsSpace d with
              | false => rfl
              | true => exact absurd ⟨hspc, hdd⟩ hR
            rw [List.dropWhile_cons_of_neg (by simp [hd])]
        rw [replAll_succ_some wsPlus [' '] fuel (c :: cs) _ hws, hdw, List.singleton_append]
        rw [ih (fun x hx hxs => h1 x (List.mem_cons_of_mem c hx) hxs)
          (List.chain'_cons'.mp h2).2 fuel]
        rw [hceq]
      | false =>
        have hws : wsPlus (c :: cs) = none := by
          rw [wsPlus_cons, if_neg (by simp [hspc])]
        rw [replAll_succ_none_cons wsPlus [' '] fuel c cs hws]
        rw [ih (fun x hx hxs => h1 x (List.mem_cons_of_mem c hx) hxs)
          (List.chain'_cons'.mp h2).2 fuel]

theorem wsOnlySpace_trimL (l : List Char) (h : wsOnlySpace l) : wsOnlySpace (trimL l) :=
  fun c hc hsp => h c (mem_trimL c l hc) hsp

theorem noTwoWs_trimL (l : List Char) (h : noTwoWs l) : noTwoWs (trimL l) := by
  have hsuf : l.dropWhile isJsSpace <:+ l :=
    ⟨l.takeWhile isJsSpace, List.takeWhile_append_dropWhile isJsSpace l⟩
  have h2 : List.Chain' (fun a b => ¬(isJsSpace a = true ∧ isJsSpace b = true))
      (l.dropWhile isJsSpace) := List.Chain'.suffix h hsuf
  exact List.Chain'.prefix h2 (List.rdropWhile_prefix isJsSpace (l.dropWhile isJsSpace))

theorem dropWhile_trimL (l : List Char) : (trimL l).dropWhile isJsSpace = trimL l := by
  cases hc : trimL l with
  | nil => rfl
  | cons c cs =>
    have hcf : isJsSpace c = false := by
      obtain ⟨u, hu⟩ := List.rdropWhile_prefix isJsSpace (l.dropWhile isJsSpace)
      have htr : List.rdropWhile isJsSpace (l.dropWhile isJsSpace) = c :: cs := hc
      rw [htr] at hu
      have h4 : l.dropWhile isJsSpace = c :: (cs ++ u) := by
        rw [← hu, List.cons_append]
      have h3 := List.head?_dropWhile_not isJsSpace l
      rw [h4] at h3
      simpa using h3
    rw [List.dropWhile_cons_of_neg (by simp [hcf])]

theorem trimL_idem (l : List Char) : trimL (trimL l) = trimL l := by
  show ((trimL l).dropWhile isJsSpace).rdropWhile isJsSpace = trimL l
  rw [dropWhile_trimL]
  exact List.rdropWhile_idempotent isJsSpace (l.dropWhile isJsSpace)

theorem noH_tail : ∀ (c : Char) (cs : List Char), hasTokCi ['-', 'H'] (c :: cs) = false →
    hasTokCi ['-', 'H'] cs = false :=
  fun c cs h => (hasTokCi_cons _ _ _ h).2

theorem foldl_deny_id :
    ∀ (hs : List String) (s : List Char), hasTokCi ['-', 'H'] s = false →
      hs.foldl (fun acc hh => CurlParser.replAllS (CurlParser.tryDenyAt hh) "" acc) s = s := by
  intro hs
  induction hs with
  | nil => intro s _; rfl
  | cons hh t ih =>
    intro s h
    rw [List.foldl_cons]
    have hone : CurlParser.replAllS (CurlParser.tryDenyAt hh) "" s = s :=
      replAll_id (CurlParser.tryDenyAt hh) "".toList
        (fun tt => hasTokCi ['-', 'H'] tt = false) noH_tail
        (fun tt htt => tryDenyAt_none hh tt htt) (s.length + 1) s h
    rw [hone]
    exact ih s h

theorem sanitize_eq_of_noH (y : String) (hy : hasTokCi ['-', 'H'] y.toList = false) :
    CurlParser.sanitize y =
      (trimL (CurlParser.replAllS wsPlus " "
        (CurlParser.replAllS CurlParser.tryContAt " " y.toList))).asString := by
  have h1 : CurlParser.replAllS (CurlParser.tryAuthAt '\'') "" y.toList = y.toList :=
    replAll_id (CurlParser.tryAuthAt '\'') "".toList
      (fun tt => hasTokCi ['-', 'H'] tt = false) noH_tail
      (fun tt htt => tryAuthAt_none '\'' tt htt) (y.toList.length + 1) y.toList hy
  have h2 : CurlParser.replAllS (CurlParser.tryAuthAt '"') "" y.toList = y.toList :=
    replAll_id (CurlParser.tryAuthAt '"') "".toList
      (fun tt => hasTokCi ['-', 'H'] tt = false) noH_tail
      (fun tt htt => tryAuthAt_none '"' tt htt) (y.toList.length + 1) y.toList hy
  have h3 := foldl_deny_id CurlParser.headersToRemove y.toList hy
  have h5 : hasTokCi ['-', 'H']
      (CurlParser.replAllS wsPlus " " (CurlParser.replAllS CurlParser.tryContAt " " y.toList)) =
        false :=
    replAll_preserves_noH wsPlus wsPlus_noH_shrink _ _ (Nat.lt_succ_self _)
      (replAll_preserves_noH CurlParser.tryContAt tryContAt_noH_shrink _ _
        (Nat.lt_succ_self _) hy)
  have h6 : CurlParser.replAllS CurlParser.tryFixHAt " -H "
      (CurlParser.replAllS wsPlus " " (CurlParser.replAllS CurlParser.tryContAt " " y.toList)) =
        CurlParser.replAllS wsPlus " " (CurlParser.replAllS CurlParser.tryContAt " " y.toList) :=
    replAll_id CurlParser.tryFixHAt " -H ".toList
      (fun tt => hasTokCi ['-', 'H'] tt = false) noH_tail
      (fun tt htt => tryFixHAt_none tt htt) _ _ h5
  show jsTrim ((CurlParser.replAllS CurlParser.tryFixHAt " -H "
      (CurlParser.replAllS wsPlus " "
        (CurlParser.replAllS CurlParser.tryContAt " "
          (CurlParser.headersToRemove.foldl
            (fun acc h => CurlParser.replAllS (CurlParser.tryDenyAt h) "" acc)
            (CurlParser.replAllS (CurlParser.tryAuthAt '"') ""
              (CurlParser.replAllS (CurlParser.tryAuthAt '\'') "" y.toList)))))).asString) = _
  rw [h1, h2, h3, h6]
  show (trimL ((CurlParser.replAllS wsPlus " "
      (CurlParser.replAllS CurlParser.tryContAt " " y.toList)).asString.toList)).asString = _
  rw [List.toList_asString]

theorem sanitize_not_idem_example :
    CurlParser.sanitize (CurlParser.sanitize "x-H-H y") ≠ CurlParser.sanitize "x-H-H y" := by
  decide

/-- C6: `sanitize` is NOT idempotent in general: on `"x-H-H y"` the `\s*-H\s+`
normalizer of the first pass manufactures text on which a second pass finds a
fresh match, so `sanitize (sanitize x) ≠ sanitize x`.  The amended claim holds:
for every input that contains no case-insensitive occurrence of the two-character
token `-H`, `sanitize` is idempotent. -/
theorem sanitize_idempotent_no_header_flag (x : String)
    (h : hasTokCi ['-', 'H'] x.toList = false) :
    CurlParser.sanitize (CurlParser.sanitize x) = CurlParser.sanitize x := by
  have hw := sanitize_eq_of_noH x h
  have h4 : hasTokCi ['-', 'H'] (CurlParser.replAllS CurlParser.tryContAt " " x.toList) = false :=
    replAll_preserves_noH CurlParser.tryContAt tryContAt_noH_shrink _ _
      (Nat.lt_succ_self _) h
  have h5 : hasTokCi ['-', 'H']
      (CurlParser.replAllS wsPlus " " (CurlParser.replAllS CurlParser.tryContAt " " x.toList)) =
        false :=
    replAll_preserves_noH wsPlus wsPlus_noH_shrink _ _ (Nat.lt_succ_self _) h4
  have hwso : wsOnlySpace
      (CurlParser.replAllS wsPlus " " (CurlParser.replAllS CurlParser.tryContAt " " x.toList)) :=
    collapse_wsOnly _ _ (Nat.lt_succ_self _)
  have hwnt : noTwoWs
      (CurlParser.replAllS wsPlus " " (CurlParser.replAllS CurlParser.tryContAt " " x.toList)) :=
    collapse_noTwoWs _ _ (Nat.lt_succ_self _)
  have hyso := wsOnlySpace_trimL _ hwso
  have hynt := noTwoWs_trimL _ hwnt
  have hynoH := hasTokCi_trimL '-' ['H'] _ h5
  have htl : (CurlParser.sanitize x).toList =
      trimL (CurlParser.replAllS wsPlus " "
        (CurlParser.replAllS CurlParser.tryContAt " " x.toList)) := by
    rw [hw, List.toList_asString]
  have hsecond := sanitize_eq_of_noH (CurlParser.sanitize x) (by rw [htl]; exact hynoH)
  rw [hsecond, htl]
  have hcont : CurlParser.replAllS CurlParser.tryContAt " "
      (trimL (CurlParser.replAllS wsPlus " "
        (CurlParser.replAllS CurlParser.tryContAt " " x.toList))) =
      trimL (CurlParser.replAllS wsPlus " "
        (CurlParser.replAllS CurlParser.tryContAt " " x.toList)) :=
    replAll_id CurlParser.tryContAt " ".toList wsOnlySpace
      (fun c cs hcc => fun d hd hsp => hcc d (List.mem_cons_of_mem c hd) hsp)
      (fun tt htt => tryContAt_none_wsOnly tt htt) _ _ hyso
  rw [hcont]
  have hcoll : CurlParser.replAllS wsPlus " "
      (trimL (CurlParser.replAllS wsPlus " "
        (CurlParser.replAllS CurlParser.tryContAt " " x.toList))) =
      trimL (CurlParser.replAllS wsPlus " "
        (CurlParser.replAllS CurlParser.tryContAt " " x.toList)) :=
    collapse_id _ hyso hynt _
  rw [hcoll, trimL_idem, hw]

theorem sanitize_idempotent_no_header_flag_witness :
    hasTokCi ['-', 'H'] ("curl -d 'a=1' https://a.com".toList) = false ∧
      CurlParser.sanitize (CurlParser.sanitize "curl -d 'a=1' https://a.com") =
        CurlParser.sanitize "curl -d 'a=1' https://a.com" :=
  ⟨by decide, sanitize_idempotent_no_header_flag "curl -d 'a=1' https://a.com" (by decide)⟩

/-- C5: method selection.  When `parse` succeeds, the method is the first
`-X`-captured verb upper-cased when the case-insensitive `-X\s+([A-Z]+)` regex
matches — regardless of body flags — and otherwise `"POST"` exactly when any
`--data-raw` / `-d` / `--data` / `--data-urlencode` / `-F` / `--form` flag
matches, else `"GET"`. -/
theorem parse_method (curlCommand : String) (r : ParsedCurl)
    (h : CurlParser.parse curlCommand = some r) :
    r.method =
      match scanFirst tryXAt curlCommand.toList with
      | some (verb, _) => jsToUpper verb
      | none =>
        if scanAll tryDataRawAt (curlCommand.toList.length + 1)
              curlCommand.toList ≠ [] ∨
            scanAll tryDataAt (curlCommand.toList.length + 1)
              curlCommand.toList ≠ [] ∨
            scanAll tryUrlEncAt (curlCommand.toList.length + 1)
              curlCommand.toList ≠ [] ∨
            scanAll tryFormAt (curlCommand.toList.length + 1)
              curlCommand.toList ≠ [] then
          "POST"
        else "GET" := by
  simp only [CurlParser.parse] at h
  split at h
  · injection h with h2
    subst h2
    rfl
  · split at h
    · obtain ⟨m, hm1, hm2⟩ := Option.bind_eq_some.mp h
      injection hm2 with h2
      subst h2
      rfl
    · split at h
      · split at h
        · obtain ⟨m, hm1, hm2⟩ := Option.bind_eq_some.mp h
          injection hm2 with h2
          subst h2
          rfl
        · split at h
          · injection h with h2
            subst h2
            rfl
          · injection h with h2
            subst h2
            rfl
      · injection h with h2
        subst h2
        rfl

/-- C5 witness: a command with `-X put` (lower case) and a `-d` body parses to
method `"PUT"`. -/
theorem parse_method_witness :
    ((CurlParser.parse "curl -X put https://a.com -d 'a=1'").getD exCurl).method = "PUT" :=
  Eq.trans
    (parse_method "curl -X put https://a.com -d 'a=1'"
      ((CurlParser.parse "curl -X put https://a.com -d 'a=1'").getD exCurl) (by rfl))
    (by decide)

/-- C9: URL extraction.  When `parse` succeeds, the first token captured by
`curl\s+'([^']+)'|curl\s+"([^"]+)"|curl\s+([^\s]+)` is URL-parsed: on success
the result's `url` is origin + pathname (query excluded) and `queryParams` is
the accumulated decoded key/value mapping of the query string; on failure the
token is stored verbatim with no query parameters; with no token at all the
url is `""`. -/
theorem parse_url_extraction (curlCommand : String) (r : ParsedCurl)
    (h : CurlParser.parse curlCommand = some r) :
    (r.url, r.queryParams) =
      match scanFirst tryUrlAt curlCommand.toList with
      | some (tok, _) =>
        match parseURL tok with
        | some u => (u.origin ++ u.pathname,
            u.searchParams.foldl (fun acc kv => objSet acc kv.1 kv.2) [])
        | none => (tok, [])
      | none => ("", []) := by
  simp only [CurlParser.parse] at h
  split at h
  · injection h with h2
    subst h2
    rfl
  · split at h
    · obtain ⟨m, hm1, hm2⟩ := Option.bind_eq_some.mp h
      injection hm2 with h2
      subst h2
      rfl
    · split at h
      · split at h
        · obtain ⟨m, hm1, hm2⟩ := Option.bind_eq_some.mp h
          injection hm2 with h2
          subst h2
          rfl
        · split at h
          · injection h with h2
            subst h2
            rfl
          · injection h with h2
            subst h2
            rfl
      · injection h with h2
        subst h2
        rfl

/-- C9 witness: `curl 'https://a.com/p?q=1'` parses to url `https://a.com/p`
with queryParams mapping `q` to `1`. -/
theorem parse_url_extraction_witness :
    ((CurlParser.parse "curl 'https://a.com/p?q=1'").getD exCurl).url = "https://a.com/p" ∧
    ((CurlParser.parse "curl 'https://a.com/p?q=1'").getD exCurl).queryParams = [("q", "1")] := by
  have h := parse_url_extraction "curl 'https://a.com/p?q=1'"
    ((CurlParser.parse "curl 'https://a.com/p?q=1'").getD exCurl) (by rfl)
  have h1 := congrArg Prod.fst h
  have h2 := congrArg Prod.snd h
  exact ⟨h1.trans (by decide), h2.trans (by decide)⟩

theorem parse_ct_default_despite_empty_header :
    (CurlParser.parse "curl 'https://a.com' -H 'content-type: ' -d 'a=b'").map
      (fun r => r.contentType) = some (some "application/x-www-form-urlencoded") := by
  decide

/-- C4 (amended: the url-encoded default content type applies whenever the
captured content-type header value is FALSY — absent or the empty string —
not merely absent).  Body precedence: form flags force
`multipart/form-data` with the literal key/value mapping of the `-F`
captures; otherwise `-d`/`--data`/`--data-urlencode` captures are
percent-decoded into a mapping with the truthiness-defaulted content type;
otherwise `--data-raw` captures are joined with `&` and either form-decoded
(when the header content type is exactly `application/x-www-form-urlencoded`,
which is then kept) or JSON-parsed, with `application/json` on success and
`text/plain` (raw string body) on failure. -/
theorem parse_body_precedence (curlCommand : String) (r : ParsedCurl)
    (h : CurlParser.parse curlCommand = some r) :
    (formFlags curlCommand ≠ [] →
      r.contentType = some "multipart/form-data" ∧
      r.data = some (strObjToJVal ((formFlags curlCommand).foldl
        (fun acc pair =>
          let (key, val?) := eqSplitKV pair
          match val? with
          | some val => objSet acc key val
          | none => acc)
        []))) ∧
    (formFlags curlCommand = [] →
      dataFlags curlCommand ≠ [] ∨ urlEncFlags curlCommand ≠ [] →
      ∃ m, (dataFlags curlCommand ++ urlEncFlags curlCommand).foldlM decodePairsInto [] =
          some m ∧
        r.data = some (strObjToJVal m) ∧
        r.contentType = some (match parseCT0 curlCommand with
          | some s => if s = "" then "application/x-www-form-urlencoded" else s
          | none => "application/x-www-form-urlencoded")) ∧
    (formFlags curlCommand = [] → dataFlags curlCommand = [] →
      urlEncFlags curlCommand = [] → dataRawFlags curlCommand ≠ [] →
      if parseCT0 curlCommand = some "application/x-www-form-urlencoded" then
        ∃ m, decodePairsInto [] (joinSep "&" (dataRawFlags curlCommand)) = some m ∧
          r.data = some (strObjToJVal m) ∧ r.contentType = parseCT0 curlCommand
      else
        match jsonParse (joinSep "&" (dataRawFlags curlCommand)) with
        | some v => r.data = some v ∧ r.contentType = some "application/json"
        | none => r.data = some (jstr (joinSep "&" (dataRawFlags curlCommand))) ∧
            r.contentType = some "text/plain") := by
  simp only [formFlags, dataFlags, urlEncFlags, dataRawFlags, parseCT0]
  simp only [CurlParser.parse] at h
  split at h
  · rename_i hF
    injection h with h2
    subst h2
    exact ⟨fun _ => ⟨rfl, rfl⟩, fun hF0 _ => absurd hF0 hF,
      fun hF0 _ _ _ => absurd hF0 hF⟩
  · rename_i hF
    split at h
    · rename_i hDU
      obtain ⟨m, hm1, hm2⟩ := Option.bind_eq_some.mp h
      injection hm2 with h2
      subst h2
      refine ⟨fun hFn => absurd hFn hF, fun _ _ => ⟨m, hm1, rfl, rfl⟩,
        fun _ hD hU _ => ?_⟩
      rcases hDU with hDU | hDU
      · exact absurd hD hDU
      · exact absurd hU hDU
    · rename_i hDU
      split at h
      · rename_i hDR
        split at h
        · rename_i hct
          obtain ⟨m, hm1, hm2⟩ := Option.bind_eq_some.mp h
          injection hm2 with h2
          subst h2
          refine ⟨fun hFn => absurd hFn hF, fun _ hdu => absurd hdu hDU,
            fun _ _ _ _ => ?_⟩
          rw [if_pos hct]
          exact ⟨m, hm1, rfl, rfl⟩
        · rename_i hct
          cases hj : jsonParse (joinSep "&"
              (scanAll tryDataRawAt (curlCommand.toList.length + 1) curlCommand.toList)) with
          | some v =>
            rw [hj] at h
            injection h with h2
            subst h2
            refine ⟨fun hFn => absurd hFn hF, fun _ hdu => absurd hdu hDU,
              fun _ _ _ _ => ?_⟩
            rw [if_neg hct]
            exact ⟨rfl, rfl⟩
          | none =>
            rw [hj] at h
            injection h with h2
            subst h2
            refine ⟨fun hFn => absurd hFn hF, fun _ hdu => absurd hdu hDU,
              fun _ _ _ _ => ?_⟩
            rw [if_neg hct]
            exact ⟨rfl, rfl⟩
      · rename_i hDR
        injection h with h2
        subst h2
        exact ⟨fun hFn => absurd hFn hF, fun _ hdu => absurd hdu hDU,
          fun _ _ _ hdr => absurd hdr hDR⟩

/-- C4 witness: a command carrying all three body categories; the form
category wins, the content type is `multipart/form-data`, and the body is the
literal `-F` mapping. -/
theorem parse_body_precedence_witness :
    formFlags "curl 'https://a.com' -F 'a=b' -d 'c=d' --data-raw 'x'" ≠ [] ∧
    ((CurlParser.parse "curl 'https://a.com' -F 'a=b' -d 'c=d' --data-raw 'x'").getD
      exCurl).contentType = some "multipart/form-data" ∧
    ((CurlParser.parse "curl 'https://a.com' -F 'a=b' -d 'c=d' --data-raw 'x'").getD
      exCurl).data = some (jobj [("a", jstr "b")]) := by
  have h := (parse_body_precedence "curl 'https://a.com' -F 'a=b' -d 'c=d' --data-raw 'x'"
    ((CurlParser.parse "curl 'https://a.com' -F 'a=b' -d 'c=d' --data-raw 'x'").getD exCurl)
    (by rfl)).1 (by decide)
  exact ⟨by decide, h.1, h.2.trans (by rfl)⟩

end Swaggler
